import Mathlib

/-!
# LuckyCoinTipBot — ledger and reconciliation engine, shallow embedding

This file embeds the data model and the operations of the tip-bot's ledger
core (src/ledger.ts, src/db.ts, src/worker.ts, src/bootstrap.ts, src/tips.ts,
src/util.ts, src/index.ts and the revision files) as executable Lean
definitions, and proves or refutes the frozen specification claims about them.

Modelling conventions:
* Database tables are lists of rows; `SERIAL` ids are modelled with explicit
  `next…Id` counters.  SQL `SUM` is `List.sum` over a `filter`/`map`.
* `bigint` amounts are `Int` (JavaScript `BigInt` is arbitrary precision).
* Timestamps are `Int` milliseconds since epoch (JavaScript `Date.getTime()`;
  SQL intervals of 5/10 minutes become 300000/600000 ms).
* Ledger idempotency references are strings in the code, built in exactly
  three syntactic shapes: `"<txid>:<vout>"` for deposits, a bare txid for
  withdrawals, and `"tip:<ms>:<from>-><to>:<amount>"` for tips.  We model
  them as a shape-tagged value `Ref`.  Since a `Nat` printed in decimal never
  contains `':'`, each shape is injective, and the ledger's unique key is the
  pair (reason, ref) where the three shapes only ever occur with disjoint
  reasons, so equality of `Ref` values coincides with equality of the
  corresponding strings wherever the code compares them.
-/

deriving instance DecidableEq for Except

namespace LuckyBot

/-- Ledger reason tags: the closed set `LedgerReason` of src/ledger.ts. -/
inductive Reason
  | deposit
  | withdrawal
  | tip_out
  | tip_in
  | rain_out
  | rain_in
  | airdrop_out
  | airdrop_in
  deriving DecidableEq, Repr

/-- `reason IN ('deposit','withdrawal')` — the restriction used by the
hybrid (compacted) balance queries. -/
def Reason.isDepositWithdrawal : Reason → Bool
  | .deposit => true
  | .withdrawal => true
  | _ => false

/-- `reason IN ('tip_out','rain_out','airdrop_out')` (outbound tip class). -/
def Reason.isTipOut : Reason → Bool
  | .tip_out => true
  | .rain_out => true
  | .airdrop_out => true
  | _ => false

/-- `reason IN ('tip_in','rain_in','airdrop_in')` (inbound tip class). -/
def Reason.isTipIn : Reason → Bool
  | .tip_in => true
  | .rain_in => true
  | .airdrop_in => true
  | _ => false

/-- The six tip-class reasons (the `TIP_REASONS` list of src/ledger.ts). -/
def Reason.isTipClass (r : Reason) : Bool := r.isTipOut || r.isTipIn

/-- Idempotency reference strings, tagged by their syntactic shape
(see the header comment): `dep txid vout` stands for `"txid:vout"`,
`wtx txid` for the bare txid, `tip ms from to amt` for
`"tip:ms:from->to:amt"`. -/
inductive Ref
  | dep (txid : String) (vout : Nat)
  | wtx (txid : String)
  | tip (ms : Int) (fromUserId toUserId : Nat) (amountLites : Int)
  deriving DecidableEq, Repr

/-- A `public.ledger` row. -/
structure LedgerRow where
  id : Nat
  user_id : Nat
  delta_lites : Int
  reason : Reason
  ref : Ref
  created_at : Int
  deriving DecidableEq, Repr

/-- A `public.users` row (the columns the core logic reads: the serial id,
the Telegram id, and the running-total accelerator `transferred_tip_lites`;
the username column plays no part in any claim and is omitted). -/
structure UserRow where
  id : Nat
  tg_user_id : Nat
  transferred_tip_lites : Int
  deriving DecidableEq, Repr

/-- A `public.deposits` row. -/
structure DepositRow where
  user_id : Nat
  txid : String
  vout : Nat
  amount_lites : Int
  confirmations : Int
  credited : Bool
  deriving DecidableEq, Repr

/-- A `public.withdrawals` row. -/
structure WithdrawalRow where
  user_id : Nat
  to_address : String
  amount_lites : Int
  txid : String
  status : String
  deriving DecidableEq, Repr

/-- A `public.tips` audit row. -/
structure TipRow where
  from_user_id : Nat
  to_user_id : Nat
  amount_lites : Int
  created_at : Int
  ledger_out_id : Option Nat
  ledger_in_id : Option Nat
  deriving DecidableEq, Repr

/-- The shared relational store. `walletAddresses` is `public.wallet_addresses`
as (user_id, address) pairs. -/
structure DB where
  users : List UserRow
  ledger : List LedgerRow
  deposits : List DepositRow
  withdrawals : List WithdrawalRow
  tips : List TipRow
  walletAddresses : List (Nat × String)
  nextUserId : Nat
  nextLedgerId : Nat
  deriving DecidableEq, Repr

/-- The empty database (fresh serial counters starting at 1). -/
def emptyDB : DB := ⟨[], [], [], [], [], [], 1, 1⟩

-- ---------------------------------------------------------------------------
-- Users (src/ledger.ts)
-- ---------------------------------------------------------------------------

/-- `ensureUser` (src/ledger.ts): `INSERT … ON CONFLICT (tg_user_id) DO UPDATE`
returning the row.  The only conflict-update is to the username, which is not
modelled; so on conflict the existing row is returned unchanged. -/
def ensureUser (db : DB) (tgId : Nat) : UserRow × DB :=
  match db.users.find? (fun u => u.tg_user_id == tgId) with
  | some u => (u, db)
  | none =>
      let u : UserRow := ⟨db.nextUserId, tgId, 0⟩
      (u, { db with users := db.users ++ [u], nextUserId := db.nextUserId + 1 })

-- ---------------------------------------------------------------------------
-- Balances
-- ---------------------------------------------------------------------------

/-- `SUM(CASE WHEN p(reason) THEN delta_lites ELSE 0 END)` over a user's
ledger rows — the aggregation pattern of the balance queries. -/
def caseSum (L : List LedgerRow) (userId : Nat) (p : Reason → Bool) : Int :=
  ((L.filter (fun l => l.user_id == userId)).map
    (fun l => if p l.reason then l.delta_lites else 0)).sum

/-- `SUM(delta_lites)` over a user's ledger rows. -/
def deltaSum (L : List LedgerRow) (userId : Nat) : Int :=
  ((L.filter (fun l => l.user_id == userId)).map
    (fun l => l.delta_lites)).sum

/-- `balanceLites` (src/ledger.ts, compacted logic):
`users.transferred_tip_lites + SUM(CASE WHEN reason IN ('deposit','withdrawal')
THEN delta_lites ELSE 0 END)` over the user's ledger rows; an absent user
yields `BigInt("0")`. -/
def balanceLites (db : DB) (userId : Nat) : Int :=
  match db.users.find? (fun u => u.id == userId) with
  | none => 0
  | some u =>
      u.transferred_tip_lites + caseSum db.ledger userId Reason.isDepositWithdrawal

/-- `getBalanceLitesWithClient` (src/db.ts revision, part_002): the same
compacted formula, `COALESCE(u.transferred_tip_lites, 0) + SUM(CASE …)`. -/
def getBalanceLitesWithClient (db : DB) (userId : Nat) : Int :=
  match db.users.find? (fun u => u.id == userId) with
  | none => 0
  | some u =>
      u.transferred_tip_lites + caseSum db.ledger userId Reason.isDepositWithdrawal

/-- `getUserBalanceLites` (src/balance.ts revision, part_014): the
full-aggregation balance, `SUM(delta_lites)` over ALL ledger rows of the
user — deposits, withdrawals, tips, rain, airdrops. -/
def getUserBalanceLites (db : DB) (userId : Nat) : Int :=
  deltaSum db.ledger userId

/-- The tip-class part of a user's ledger: what the accelerator column
`users.transferred_tip_lites` is meant to summarize. -/
def tipClassSum (db : DB) (userId : Nat) : Int :=
  caseSum db.ledger userId Reason.isTipClass

-- ---------------------------------------------------------------------------
-- Ledger insert helpers (src/ledger.ts)
-- ---------------------------------------------------------------------------

/-- `findLedgerIdByRef` (src/ledger.ts): `SELECT id FROM ledger WHERE
reason = $1 AND ref = $2 LIMIT 1`. -/
def findLedgerIdByRef (db : DB) (reason : Reason) (ref : Ref) : Option Nat :=
  (db.ledger.find? (fun l => l.reason == reason && l.ref == ref)).map LedgerRow.id

/-- `insertLedger` (src/ledger.ts): `INSERT INTO ledger … ON CONFLICT ON
CONSTRAINT ledger_reason_ref_unique DO NOTHING RETURNING id`.  On conflict
Postgres returns no row, so the function's result is `null` (here `none`)
and the table is untouched. -/
def insertLedger (db : DB) (userId : Nat) (delta : Int) (reason : Reason)
    (ref : Ref) (at_ : Int) : Option Nat × DB :=
  if db.ledger.any (fun l => l.reason == reason && l.ref == ref) then
    (none, db)
  else
    (some db.nextLedgerId,
     { db with
        ledger := db.ledger ++ [⟨db.nextLedgerId, userId, delta, reason, ref, at_⟩],
        nextLedgerId := db.nextLedgerId + 1 })

/-- `credit` (src/ledger.ts): positive delta; throws on `amt <= 0n`. -/
def credit (db : DB) (userId : Nat) (amountLites : Int) (reason : Reason)
    (ref : Ref) (at_ : Int) : Except String (Option Nat × DB) :=
  if amountLites ≤ 0 then .error "credit amount must be > 0"
  else .ok (insertLedger db userId amountLites reason ref at_)

/-- `debit` (src/ledger.ts): negative delta; throws on `amt <= 0n`. -/
def debit (db : DB) (userId : Nat) (amountLites : Int) (reason : Reason)
    (ref : Ref) (at_ : Int) : Except String (Option Nat × DB) :=
  if amountLites ≤ 0 then .error "debit amount must be > 0"
  else .ok (insertLedger db userId (-amountLites) reason ref at_)

/-- `recordTipAudit` (src/ledger.ts): `INSERT INTO tips … ON CONFLICT DO
NOTHING`.  The tips table's DDL is not in the repository; the code comment
says the insert "relies on a UNIQUE in tips".  Modelled from the spec: the
TipAudit row references the two ledger entries it pairs and duplicate
inserts are ignored, so the conflict target is taken to be the pair
(ledger_out_id, ledger_in_id). -/
def recordTipAudit (db : DB) (fromUserId toUserId : Nat) (amountLites : Int)
    (createdAt : Int) (ledgerOutId ledgerInId : Option Nat) : DB :=
  let row : TipRow :=
    ⟨fromUserId, toUserId,
     if amountLites < 0 then -amountLites else amountLites,
     createdAt, ledgerOutId, ledgerInId⟩
  if db.tips.any (fun t =>
      t.ledger_out_id == ledgerOutId && t.ledger_in_id == ledgerInId) then db
  else { db with tips := db.tips ++ [row] }

-- ---------------------------------------------------------------------------
-- Transfer (src/ledger.ts — the revision imported by src/index.ts)
-- ---------------------------------------------------------------------------

/-- The shared tip idempotency reference
`tip:${now.getTime()}:${fromUserId}->${toUserId}:${amountLites}`. -/
def tipRef (nowMs : Int) (fromUserId toUserId : Nat) (amountLites : Int) : Ref :=
  .tip nowMs fromUserId toUserId amountLites

/-- `UPDATE users SET transferred_tip_lites = transferred_tip_lites + d
WHERE id = userId`. -/
def updateTransferred (db : DB) (userId : Nat) (d : Int) : DB :=
  { db with
     users := db.users.map (fun u =>
       if u.id == userId then
         { u with transferred_tip_lites := u.transferred_tip_lites + d }
       else u) }

/-- `transfer` (src/ledger.ts, lines 225–273): validations, then a balance
check via `balanceLites` (issued BEFORE the `BEGIN` and without any row
lock — see the C2/C3 analysis), then the two tip-audit ledger inserts, the
two accelerator updates and the tips-audit insert.  This definition is the
sequential (no-interference, transaction-respecting) semantics of one call;
the concurrency and rollback behaviour is modelled separately below. -/
def transfer (db : DB) (fromUserId toUserId : Nat) (amountLites : Int)
    (nowMs : Int) : Except String DB :=
  if amountLites ≤ 0 then .error "Amount must be positive"
  else if fromUserId == toUserId then .error "Cannot tip yourself"
  else if balanceLites db fromUserId < amountLites then .error "Insufficient balance"
  else
    let ref := tipRef nowMs fromUserId toUserId amountLites
    let r1 := insertLedger db fromUserId (-amountLites) .tip_out ref nowMs
    let r2 := insertLedger r1.2 toUserId amountLites .tip_in ref nowMs
    let outId := match r1.1 with
      | some i => some i
      | none => findLedgerIdByRef r2.2 .tip_out ref
    let inId := match r2.1 with
      | some i => some i
      | none => findLedgerIdByRef r2.2 .tip_in ref
    let db3 := updateTransferred r2.2 fromUserId (-amountLites)
    let db4 := updateTransferred db3 toUserId amountLites
    .ok (recordTipAudit db4 fromUserId toUserId amountLites nowMs outId inId)

-- ---------------------------------------------------------------------------
-- tipLites (src/tips.ts): the plain-insert tip path
-- ---------------------------------------------------------------------------

/-- A plain `INSERT INTO ledger … RETURNING id` (no ON CONFLICT), as issued by
src/tips.ts; a duplicate (reason, ref) raises the unique-constraint error. -/
def insertLedgerPlain (db : DB) (userId : Nat) (delta : Int) (reason : Reason)
    (ref : Ref) (at_ : Int) : Except String (Nat × DB) :=
  if db.ledger.any (fun l => l.reason == reason && l.ref == ref) then
    .error "duplicate key value violates unique constraint"
  else
    .ok (db.nextLedgerId,
      { db with
         ledger := db.ledger ++ [⟨db.nextLedgerId, userId, delta, reason, ref, at_⟩],
         nextLedgerId := db.nextLedgerId + 1 })

/-- `tipLites` (src/tips.ts): validations, balance check, two plain ledger
inserts, two accelerator updates, tips-audit insert, commit.  Sequential
semantics of one call; an error anywhere rolls the transaction back, which
the callers observe as an unchanged store (see `runTipLites`). -/
def tipLites (db : DB) (fromUserId toUserId : Nat) (amountLites : Int)
    (nowMs : Int) : Except String DB :=
  if amountLites ≤ 0 then .error "amount must be positive"
  else if fromUserId == toUserId then .error "cannot tip yourself"
  else if getBalanceLitesWithClient db fromUserId < amountLites then
    .error "insufficient balance"
  else
    let ref := tipRef nowMs fromUserId toUserId amountLites
    match insertLedgerPlain db fromUserId (-amountLites) .tip_out ref nowMs with
    | .error e => .error e
    | .ok (outId, db1) =>
      match insertLedgerPlain db1 toUserId amountLites .tip_in ref nowMs with
      | .error e => .error e
      | .ok (inId, db2) =>
        let db3 := updateTransferred db2 fromUserId (-amountLites)
        let db4 := updateTransferred db3 toUserId amountLites
        .ok (recordTipAudit db4 fromUserId toUserId amountLites nowMs
              (some outId) (some inId))

/-- What a caller of `transfer` observes: the new store on success, the old
store when the call threw (the transaction was rolled back / never begun). -/
def runTransfer (db : DB) (f g : Nat) (a ms : Int) : DB :=
  match transfer db f g a ms with
  | .ok d => d
  | .error _ => db

/-- Caller view of `tipLites`, as for `runTransfer`. -/
def runTipLites (db : DB) (f g : Nat) (a ms : Int) : DB :=
  match tipLites db f g a ms with
  | .ok d => d
  | .error _ => db

-- ---------------------------------------------------------------------------
-- C1: conflict behaviour of the ledger posting operations
-- ---------------------------------------------------------------------------

/-- A store holding one user (id 1). -/
def c1_db0 : DB := { emptyDB with users := [⟨1, 100, 0⟩], nextUserId := 2 }

/-- `c1_db0` after one successful deposit credit of 5 with ref "a:0". -/
def c1_db1 : DB :=
  { c1_db0 with
     ledger := [⟨1, 1, 5, .deposit, .dep "a" 0, 7⟩],
     nextLedgerId := 2 }

/-- C1, counterexample: posting twice with the same (reason, reference) does
NOT yield the same entry id both times — the first `credit` returns id 1,
the identical second `credit` hits `ON CONFLICT … DO NOTHING RETURNING id`,
gets no row back, and returns `null` (`none`), not the existing id 1 (which
a lookup would have found). -/
theorem c1_counterexample :
    credit c1_db0 1 5 Reason.deposit (Ref.dep "a" 0) 7 = .ok (some 1, c1_db1) ∧
    credit c1_db1 1 5 Reason.deposit (Ref.dep "a" 0) 7 = .ok (none, c1_db1) ∧
    findLedgerIdByRef c1_db1 Reason.deposit (Ref.dep "a" 0) = some 1 ∧
    (none : Option Nat) ≠ some 1 := by
  refine ⟨by decide, by decide, by decide, by decide⟩

/-- C1, amended: when a row with the same (reason, reference) already exists,
`insertLedger` / `credit` / `debit` do not raise a hard failure and leave the
ledger unchanged (so the balance is not changed twice), but they return
`none` rather than the existing row's id; the existing id is recoverable by
the `findLedgerIdByRef` lookup (which is exactly what `transfer` does for
its two tip rows). -/
theorem c1_amended (db : DB) (userId : Nat) (δ : Int) (r : Reason) (ref : Ref)
    (t : Int) (hδ : 0 < δ) (l : LedgerRow) (hl : l ∈ db.ledger)
    (hr : l.reason = r) (href : l.ref = ref) :
    insertLedger db userId δ r ref t = (none, db) ∧
    (findLedgerIdByRef db r ref).isSome = true ∧
    credit db userId δ r ref t = .ok (none, db) ∧
    debit db userId δ r ref t = .ok (none, db) ∧
    balanceLites (insertLedger db userId δ r ref t).2 userId = balanceLites db userId := by
  have hpred : (fun x : LedgerRow => x.reason == r && x.ref == ref) l = true := by
    simp [hr, href]
  have hany : db.ledger.any (fun x => x.reason == r && x.ref == ref) = true := by
    rw [List.any_eq_true]
    exact ⟨l, hl, hpred⟩
  have hins : insertLedger db userId δ r ref t = (none, db) := by
    simp [insertLedger, hany]
  have hfind : (db.ledger.find? (fun x => x.reason == r && x.ref == ref)).isSome = true := by
    rw [List.find?_isSome]
    exact ⟨l, hl, hpred⟩
  have hnotle : ¬ δ ≤ 0 := not_le.mpr hδ
  refine ⟨hins, ?_, ?_, ?_, ?_⟩
  · simpa [findLedgerIdByRef] using hfind
  · simp [credit, hnotle, hins]
  · have hins2 : insertLedger db userId (-δ) r ref t = (none, db) := by
      simp [insertLedger, hany]
    simp [debit, hnotle, hins2]
  · rw [hins]

/-- C1 witness: the amended statement evaluated on the concrete one-row
store `c1_db1`. -/
theorem c1_amended_witness :
    insertLedger c1_db1 1 9 Reason.deposit (Ref.dep "a" 0) 7 = (none, c1_db1) ∧
    (findLedgerIdByRef c1_db1 Reason.deposit (Ref.dep "a" 0)).isSome = true ∧
    credit c1_db1 1 9 Reason.deposit (Ref.dep "a" 0) 7 = .ok (none, c1_db1) ∧
    debit c1_db1 1 9 Reason.deposit (Ref.dep "a" 0) 7 = .ok (none, c1_db1) ∧
    balanceLites (insertLedger c1_db1 1 9 Reason.deposit (Ref.dep "a" 0) 7).2 1 =
      balanceLites c1_db1 1 :=
  c1_amended c1_db1 1 9 Reason.deposit (Ref.dep "a" 0) 7 (by decide)
    ⟨1, 1, 5, Reason.deposit, Ref.dep "a" 0, 7⟩ (by decide) rfl rfl

-- ---------------------------------------------------------------------------
-- C9: validation of non-positive amounts and self-transfers
-- ---------------------------------------------------------------------------

/-- C9: every transfer call with `amount ≤ 0` or `fromUser = toUser` is
rejected with the typed validation error before any write occurs, in both
the `transfer` path (src/ledger.ts) and the `tipLites` path (src/tips.ts);
the store (ledger rows and both balances) is unchanged. -/
theorem c9_validation (db : DB) (f g : Nat) (a : Int) (ms : Int)
    (h : a ≤ 0 ∨ f = g) :
    transfer db f g a ms =
      .error (if a ≤ 0 then "Amount must be positive" else "Cannot tip yourself") ∧
    tipLites db f g a ms =
      .error (if a ≤ 0 then "amount must be positive" else "cannot tip yourself") ∧
    runTransfer db f g a ms = db ∧
    runTipLites db f g a ms = db := by
  by_cases ha : a ≤ 0
  · refine ⟨?_, ?_, ?_, ?_⟩ <;>
      simp [transfer, tipLites, runTransfer, runTipLites, ha]
  · have hfg : f = g := h.resolve_left ha
    have hbeq : (f == g) = true := by simp [hfg]
    refine ⟨?_, ?_, ?_, ?_⟩ <;>
      simp [transfer, tipLites, runTransfer, runTipLites, ha, hbeq]

/-- C9 witness: a concrete self-tip of 5 lites is rejected by both paths and
the empty store is unchanged. -/
theorem c9_validation_witness :
    transfer emptyDB 1 1 5 0 =
      .error (if (5:Int) ≤ 0 then "Amount must be positive" else "Cannot tip yourself") ∧
    tipLites emptyDB 1 1 5 0 =
      .error (if (5:Int) ≤ 0 then "amount must be positive" else "cannot tip yourself") ∧
    runTransfer emptyDB 1 1 5 0 = emptyDB ∧
    runTipLites emptyDB 1 1 5 0 = emptyDB :=
  c9_validation emptyDB 1 1 5 0 (Or.inr rfl)

-- ---------------------------------------------------------------------------
-- C4: balance-model equivalence over deposit/withdrawal/tip sequences
-- ---------------------------------------------------------------------------

/-- One balance-affecting front-end operation.  Deposits run through the
worker (`ensureUser` then `credit` with reason `deposit` and ref
`txid:vout`), withdrawals through the withdraw command (`debit` with reason
`withdrawal` and ref the txid), tips through `transfer`. -/
inductive Op
  | dep (tgId : Nat) (amountLites : Int) (txid : String) (vout : Nat) (atMs : Int)
  | wd (tgId : Nat) (amountLites : Int) (txid : String) (atMs : Int)
  | tip (fromTg toTg : Nat) (amountLites : Int) (nowMs : Int)
  deriving DecidableEq, Repr

/-- Apply one operation; a thrown validation/balance error is caught by the
caller and leaves the store as it was (the `ensureUser` upserts run as their
own statements before the failing one, as in the code). -/
def applyOp (db : DB) (o : Op) : DB :=
  match o with
  | .dep tg a tx v t =>
      let r := ensureUser db tg
      match credit r.2 r.1.id a .deposit (.dep tx v) t with
      | .ok p => p.2
      | .error _ => r.2
  | .wd tg a tx t =>
      let r := ensureUser db tg
      match debit r.2 r.1.id a .withdrawal (.wtx tx) t with
      | .ok p => p.2
      | .error _ => r.2
  | .tip ftg ttg a ms =>
      let r1 := ensureUser db ftg
      let r2 := ensureUser r1.2 ttg
      match transfer r2.2 r1.1.id r2.1.id a ms with
      | .ok d => d
      | .error _ => r2.2

/-- Run a sequence of operations. -/
def runOps (db : DB) (ops : List Op) : DB := ops.foldl applyOp db

/-- No tip-class ledger row with this reference exists yet (so both of the
transfer's conflict-ignored inserts will really insert). -/
def tipRefFresh (db : DB) (ref : Ref) : Bool :=
  !(db.ledger.any (fun l =>
     (l.reason == Reason.tip_out || l.reason == Reason.tip_in) && l.ref == ref))

/-- A tip operation is fresh when its derived reference
(`tip:<ms>:<from>-><to>:<amount>`) is not already in the ledger; deposits and
withdrawals are always allowed (their replay is conflict-ignored on BOTH
sides of the comparison, so it cannot desynchronize the two balance models). -/
def freshOp (db : DB) : Op → Bool
  | .tip ftg ttg a ms =>
      let r1 := ensureUser db ftg
      let r2 := ensureUser r1.2 ttg
      tipRefFresh db (tipRef ms r1.1.id r2.1.id a)
  | _ => true

/-- Every tip in the trace uses a fresh reference at its point of execution. -/
def freshTrace (db : DB) : List Op → Bool
  | [] => true
  | o :: rest => freshOp db o && freshTrace (applyOp db o) rest

/-- The consistency invariant tying the accelerator column to the ledger:
user ids are unique and below the serial counter, ledger rows belong to
existing users, and every user's `transferred_tip_lites` equals the
tip-class sum of their ledger rows. -/
structure StateInv (db : DB) : Prop where
  usersNodup : (db.users.map UserRow.id).Nodup
  usersLt : ∀ u ∈ db.users, u.id < db.nextUserId
  ledgerUsers : ∀ l ∈ db.ledger, ∃ u ∈ db.users, u.id = l.user_id
  accel : ∀ u ∈ db.users, u.transferred_tip_lites = tipClassSum db u.id

theorem caseSum_append (L1 L2 : List LedgerRow) (u : Nat) (p : Reason → Bool) :
    caseSum (L1 ++ L2) u p = caseSum L1 u p + caseSum L2 u p := by
  simp [caseSum, List.filter_append]

theorem caseSum_cons (l : LedgerRow) (L : List LedgerRow) (u : Nat) (p : Reason → Bool) :
    caseSum (l :: L) u p =
      (if l.user_id = u then (if p l.reason then l.delta_lites else 0) else 0) +
        caseSum L u p := by
  by_cases h : l.user_id = u <;> simp [caseSum, List.filter_cons, h]

theorem deltaSum_cons (l : LedgerRow) (L : List LedgerRow) (u : Nat) :
    deltaSum (l :: L) u =
      (if l.user_id = u then l.delta_lites else 0) + deltaSum L u := by
  by_cases h : l.user_id = u <;> simp [deltaSum, List.filter_cons, h]

/-- Every reason is exactly one of tip-class or deposit/withdrawal. -/
theorem reason_split (r : Reason) (δ : Int) :
    (if r.isTipClass then δ else 0) + (if r.isDepositWithdrawal then δ else 0) = δ := by
  cases r <;>
    simp [Reason.isTipClass, Reason.isTipOut, Reason.isTipIn, Reason.isDepositWithdrawal]

/-- Full aggregation = tip-class part + deposit/withdrawal part. -/
theorem deltaSum_split (L : List LedgerRow) (u : Nat) :
    deltaSum L u = caseSum L u Reason.isTipClass + caseSum L u Reason.isDepositWithdrawal := by
  induction L with
  | nil => simp [deltaSum, caseSum]
  | cons l t ih =>
      rw [deltaSum_cons, caseSum_cons, caseSum_cons, ih]
      by_cases h : l.user_id = u
      · have hr := reason_split l.reason l.delta_lites
        simp only [h, if_true]
        omega
      · simp [h]

theorem caseSum_eq_zero (L : List LedgerRow) (u : Nat) (p : Reason → Bool)
    (h : ∀ l ∈ L, l.user_id ≠ u) : caseSum L u p = 0 := by
  induction L with
  | nil => simp [caseSum]
  | cons l t ih =>
      rw [caseSum_cons]
      have h1 := h l (List.mem_cons_self l t)
      simp [h1, ih (fun x hx => h x (List.mem_cons_of_mem l hx))]

theorem deltaSum_eq_zero (L : List LedgerRow) (u : Nat)
    (h : ∀ l ∈ L, l.user_id ≠ u) : deltaSum L u = 0 := by
  induction L with
  | nil => simp [deltaSum]
  | cons l t ih =>
      rw [deltaSum_cons]
      have h1 := h l (List.mem_cons_self l t)
      simp [h1, ih (fun x hx => h x (List.mem_cons_of_mem l hx))]

/-- Under the consistency invariant the two balance strategies agree. -/
theorem balance_models_agree (db : DB) (inv : StateInv db) (uid : Nat) :
    getUserBalanceLites db uid = balanceLites db uid := by
  unfold getUserBalanceLites balanceLites
  cases hfind : db.users.find? (fun u => u.id == uid) with
  | none =>
      have hnone : ∀ u ∈ db.users, ¬ ((fun u : UserRow => u.id == uid) u = true) :=
        fun u hu => List.find?_eq_none.mp hfind u hu
      have hrows : ∀ l ∈ db.ledger, l.user_id ≠ uid := by
        intro l hl hcontra
        obtain ⟨u, hu, hid⟩ := inv.ledgerUsers l hl
        exact hnone u hu (by simp [hid, hcontra])
      simpa using deltaSum_eq_zero db.ledger uid hrows
  | some ur =>
      have hmem : ur ∈ db.users := List.mem_of_find?_eq_some hfind
      have hp := List.find?_some hfind
      have hid : ur.id = uid := by simpa using hp
      have hacc := inv.accel ur hmem
      simp only [deltaSum_split]
      rw [hacc, tipClassSum, hid]

theorem ensureUser_ledger (db : DB) (tg : Nat) : (ensureUser db tg).2.ledger = db.ledger := by
  unfold ensureUser
  cases db.users.find? (fun u => u.tg_user_id == tg) <;> rfl

theorem ensureUser_mem (db : DB) (tg : Nat) :
    (ensureUser db tg).1 ∈ (ensureUser db tg).2.users := by
  unfold ensureUser
  cases h : db.users.find? (fun u => u.tg_user_id == tg) with
  | none => simp
  | some u => simpa using List.mem_of_find?_eq_some h

theorem ensureUser_users_mono (db : DB) (tg : Nat) (u : UserRow) (hu : u ∈ db.users) :
    u ∈ (ensureUser db tg).2.users := by
  unfold ensureUser
  cases db.users.find? (fun x => x.tg_user_id == tg) with
  | none => simpa using Or.inl hu
  | some _ => simpa using hu

theorem stateInv_ensureUser (db : DB) (tg : Nat) (inv : StateInv db) :
    StateInv (ensureUser db tg).2 := by
  unfold ensureUser
  cases hf : db.users.find? (fun u => u.tg_user_id == tg) with
  | some u => exact inv
  | none =>
      have hfreshRows : ∀ l ∈ db.ledger, l.user_id ≠ db.nextUserId := by
        intro l hl hcontra
        obtain ⟨u, hu, hid⟩ := inv.ledgerUsers l hl
        have := inv.usersLt u hu
        omega
      refine ⟨?_, ?_, ?_, ?_⟩
      · simp only [List.map_append, List.map_cons, List.map_nil]
        rw [List.nodup_append]
        refine ⟨inv.usersNodup, List.nodup_singleton _, ?_⟩
        intro x hx hx'
        obtain ⟨u, hu, rfl⟩ := List.mem_map.mp hx
        have := inv.usersLt u hu
        simp only [List.mem_singleton] at hx'
        omega
      · intro u hu
        rcases List.mem_append.mp hu with h | h
        · have := inv.usersLt u h
          simp only
          omega
        · simp only [List.mem_singleton] at h
          subst h
          simp
      · intro l hl
        obtain ⟨u, hu, hid⟩ := inv.ledgerUsers l hl
        exact ⟨u, List.mem_append.mpr (Or.inl hu), hid⟩
      · intro u hu
        rcases List.mem_append.mp hu with h | h
        · exact inv.accel u h
        · simp only [List.mem_singleton] at h
          subst h
          simp only
          have : ∀ l ∈ db.ledger, l.user_id ≠ db.nextUserId := hfreshRows
          exact (caseSum_eq_zero db.ledger db.nextUserId Reason.isTipClass this).symm

theorem updateTransferred_ledger (db : DB) (u : Nat) (d : Int) :
    (updateTransferred db u d).ledger = db.ledger := rfl

theorem updateTransferred_users (db : DB) (u : Nat) (d : Int) :
    (updateTransferred db u d).users = db.users.map (fun x =>
      if x.id == u then { x with transferred_tip_lites := x.transferred_tip_lites + d }
      else x) := rfl

/-- The accelerator updates of a successful transfer preserve the invariant
fields: ids are untouched and each user's total moves with the two new
tip-class ledger rows. -/
theorem stateInv_transferOk (db : DB) (fid tid : Nat) (a ms : Int)
    (inv : StateInv db)
    (hfm : ∃ u ∈ db.users, u.id = fid) (htm : ∃ u ∈ db.users, u.id = tid)
    (hfresh : tipRefFresh db (tipRef ms fid tid a) = true) (db' : DB)
    (hres : transfer db fid tid a ms = .ok db') : StateInv db' := by
  by_cases h1 : a ≤ 0
  · simp [transfer, h1] at hres
  have hne : fid ≠ tid := by
    intro hcontra
    have hb : (fid == tid) = true := by simp [hcontra]
    simp [transfer, h1, hb] at hres
  by_cases h3 : balanceLites db fid < a
  · have h2 : (fid == tid) = false := by simp [hne]
    simp [transfer, h1, h2, h3] at hres
  -- success path: compute the two inserts
  have h2 : (fid == tid) = false := by simp [hne]
  have hrf := tipRef ms fid tid a
  -- the freshness hypothesis kills both conflict checks
  have hnotany : ∀ r' : Reason, r' = Reason.tip_out ∨ r' = Reason.tip_in →
      db.ledger.any (fun l => l.reason == r' && l.ref == tipRef ms fid tid a) = false := by
    intro r' hr'
    rw [List.any_eq_false]
    intro l hl
    have hfa := hfresh
    unfold tipRefFresh at hfa
    rw [Bool.not_eq_true', List.any_eq_false] at hfa
    have := hfa l hl
    rcases hr' with rfl | rfl <;>
      · intro hcontra
        apply this
        simp only [Bool.and_eq_true, Bool.or_eq_true] at hcontra ⊢
        exact ⟨by simp [hcontra.1], hcontra.2⟩
  have hany1 := hnotany Reason.tip_out (Or.inl rfl)
  set ref := tipRef ms fid tid a with href
  set outRow : LedgerRow := ⟨db.nextLedgerId, fid, -a, .tip_out, ref, ms⟩ with hout
  set dbA : DB :=
    { db with ledger := db.ledger ++ [outRow], nextLedgerId := db.nextLedgerId + 1 } with hdbA
  have hins1 : insertLedger db fid (-a) .tip_out ref ms = (some db.nextLedgerId, dbA) := by
    simp [insertLedger, hany1, hdbA, hout]
  have hany2 : dbA.ledger.any (fun l => l.reason == Reason.tip_in && l.ref == ref) = false := by
    rw [List.any_eq_false]
    intro l hl
    rw [hdbA] at hl
    simp only [List.mem_append, List.mem_singleton] at hl
    rcases hl with hl | rfl
    · have := List.any_eq_false.mp (hnotany Reason.tip_in (Or.inr rfl)) l hl
      exact this
    · simp [hout]
  set inRow : LedgerRow := ⟨dbA.nextLedgerId, tid, a, .tip_in, ref, ms⟩ with hin
  set dbB : DB :=
    { dbA with ledger := dbA.ledger ++ [inRow], nextLedgerId := dbA.nextLedgerId + 1 } with hdbB
  have hins2 : insertLedger dbA tid a .tip_in ref ms = (some dbA.nextLedgerId, dbB) := by
    simp [insertLedger, hany2, hdbB, hin]
  -- identify db'
  have hdb' : db' =
      recordTipAudit (updateTransferred (updateTransferred dbB fid (-a)) tid a)
        fid tid a ms (some db.nextLedgerId) (some dbA.nextLedgerId) := by
    have := hres
    unfold transfer at this
    rw [if_neg h1] at this
    rw [h2] at this
    simp only [Bool.false_eq_true, if_false] at this
    rw [if_neg h3] at this
    rw [← href] at this
    rw [hins1] at this
    simp only at this
    rw [hins2] at this
    simp only [Except.ok.injEq] at this
    exact this.symm
  subst hdb'
  -- now prove the invariant for the explicit final state
  set dbC := updateTransferred (updateTransferred dbB fid (-a)) tid a with hdbC
  have husersC : dbC.users = db.users.map (fun x =>
      let y := if x.id == fid then
        { x with transferred_tip_lites := x.transferred_tip_lites + -a } else x
      if y.id == tid then
        { y with transferred_tip_lites := y.transferred_tip_lites + a } else y) := by
    rw [hdbC, updateTransferred_users, updateTransferred_users]
    rw [hdbB, hdbA]
    simp only [List.map_map]
    rfl
  have hledgerC : dbC.ledger = db.ledger ++ [outRow] ++ [inRow] := by
    rw [hdbC]
    rfl
  have hnextC : dbC.nextUserId = db.nextUserId := rfl
  -- the combined per-user update function
  set phi : UserRow → UserRow := fun x =>
      let y := if x.id == fid then
        { x with transferred_tip_lites := x.transferred_tip_lites + -a } else x
      if y.id == tid then
        { y with transferred_tip_lites := y.transferred_tip_lites + a } else y
    with hphi
  have idPres : ∀ x : UserRow, (phi x).id = x.id := by
    intro x
    rw [hphi]
    by_cases h1 : (x.id == fid) = true <;> by_cases h2 : (x.id == tid) = true <;>
      simp [h1, h2]
  have trPres : ∀ x : UserRow, (phi x).transferred_tip_lites =
      x.transferred_tip_lites + (if x.id = fid then -a else 0) +
        (if x.id = tid then a else 0) := by
    intro x
    rw [hphi]
    by_cases h1 : x.id = fid
    · by_cases h2 : x.id = tid
      · exact absurd (h1.symm.trans h2) hne
      · simp [h1, h2, hne, Ne.symm hne]
    · by_cases h2 : x.id = tid
      · simp [h1, h2, hne, Ne.symm hne]
      · simp [h1, h2]
  have husersC' : dbC.users = db.users.map phi := husersC
  -- recordTipAudit only touches tips
  have recordFields : ∀ (d : DB) (f t : Nat) (am cr : Int) (o i : Option Nat),
      (recordTipAudit d f t am cr o i).users = d.users ∧
      (recordTipAudit d f t am cr o i).ledger = d.ledger ∧
      (recordTipAudit d f t am cr o i).nextUserId = d.nextUserId := by
    intro d f t am cr o i
    unfold recordTipAudit
    by_cases hc : d.tips.any (fun tt => tt.ledger_out_id == o && tt.ledger_in_id == i) <;>
      simp [hc]
  obtain ⟨hu0, hl0, hn0⟩ :=
    recordFields dbC fid tid a ms (some db.nextLedgerId) (some dbA.nextLedgerId)
  refine ⟨?_, ?_, ?_, ?_⟩
  · rw [hu0, husersC']
    have : (db.users.map phi).map UserRow.id = db.users.map UserRow.id := by
      rw [List.map_map]
      exact List.map_congr_left (fun x _ => idPres x)
    rw [this]
    exact inv.usersNodup
  · intro u hu
    rw [hn0, hnextC]
    rw [hu0, husersC'] at hu
    obtain ⟨x, hx, rfl⟩ := List.mem_map.mp hu
    rw [idPres x]
    exact inv.usersLt x hx
  · intro l hl
    rw [hl0, hledgerC] at hl
    rw [hu0, husersC']
    simp only [List.mem_append, List.mem_singleton] at hl
    have mem_mapped : ∀ uid0, (∃ u ∈ db.users, u.id = uid0) →
        ∃ u ∈ db.users.map phi, u.id = uid0 := by
      intro uid0 hex
      obtain ⟨u, hu, hid⟩ := hex
      exact ⟨phi u, List.mem_map.mpr ⟨u, hu, rfl⟩, (idPres u).trans hid⟩
    rcases hl with (hl | rfl) | rfl
    · exact mem_mapped l.user_id (inv.ledgerUsers l hl)
    · exact mem_mapped outRow.user_id (by simpa [hout] using hfm)
    · exact mem_mapped inRow.user_id (by simpa [hin] using htm)
  · intro u hu
    rw [hu0, husersC'] at hu
    obtain ⟨x, hx, rfl⟩ := List.mem_map.mp hu
    have hx0 := inv.accel x hx
    unfold tipClassSum at hx0 ⊢
    rw [hl0, hledgerC, idPres x, trPres x]
    rw [caseSum_append, caseSum_append]
    have hout1 : caseSum [outRow] x.id Reason.isTipClass =
        (if x.id = fid then -a else 0) := by
      rw [caseSum_cons]
      by_cases hx1 : x.id = fid
      · simp [caseSum, hout, hx1, Reason.isTipClass, Reason.isTipOut]
      · simp [caseSum, hout, hx1, Ne.symm hx1, Reason.isTipClass, Reason.isTipOut]
    have hin1 : caseSum [inRow] x.id Reason.isTipClass =
        (if x.id = tid then a else 0) := by
      rw [caseSum_cons]
      by_cases hx2 : x.id = tid
      · simp [caseSum, hin, hx2, Reason.isTipClass, Reason.isTipIn]
      · simp [caseSum, hin, hx2, Ne.symm hx2, Reason.isTipClass, Reason.isTipIn]
    rw [hout1, hin1, hx0]

/-- Appending a non-tip-class ledger row (deposit or withdrawal) for an
existing user preserves the invariant: the accelerator column ignores it. -/
theorem stateInv_insertDW (db : DB) (uid : Nat) (δ : Int) (r : Reason) (ref : Ref)
    (t : Int) (inv : StateInv db) (hmem : ∃ u ∈ db.users, u.id = uid)
    (hr : r.isTipClass = false) :
    StateInv (insertLedger db uid δ r ref t).2 := by
  unfold insertLedger
  by_cases hc : db.ledger.any (fun l => l.reason == r && l.ref == ref) = true
  · simpa [hc] using inv
  · rw [if_neg hc]
    refine ⟨inv.usersNodup, inv.usersLt, ?_, ?_⟩
    · intro l hl
      simp only [List.mem_append, List.mem_singleton] at hl
      rcases hl with hl | rfl
      · exact inv.ledgerUsers l hl
      · simpa using hmem
    · intro u hu
      have h0 := inv.accel u hu
      unfold tipClassSum at h0 ⊢
      simp only
      rw [caseSum_append, caseSum_cons]
      have : caseSum [] u.id Reason.isTipClass = 0 := by simp [caseSum]
      rw [this]
      by_cases hx : uid = u.id <;> simp [hx, hr, h0]

/-- `tipRefFresh` only reads the ledger. -/
theorem tipRefFresh_congr (d1 d2 : DB) (h : d1.ledger = d2.ledger) (ref : Ref) :
    tipRefFresh d1 ref = tipRefFresh d2 ref := by
  unfold tipRefFresh
  rw [h]

/-- Each fresh operation preserves the consistency invariant. -/
theorem stateInv_applyOp (db : DB) (o : Op) (inv : StateInv db)
    (hf : freshOp db o = true) : StateInv (applyOp db o) := by
  cases o with
  | dep tg a tx v t =>
      unfold applyOp
      have inv1 := stateInv_ensureUser db tg inv
      have hmem : ∃ u ∈ (ensureUser db tg).2.users, u.id = (ensureUser db tg).1.id :=
        ⟨(ensureUser db tg).1, ensureUser_mem db tg, rfl⟩
      by_cases ha : a ≤ 0
      · simp only [credit, ha, if_true]
        exact inv1
      · simp only [credit, ha, if_false]
        exact stateInv_insertDW _ _ _ _ _ _ inv1 hmem rfl
  | wd tg a tx t =>
      unfold applyOp
      have inv1 := stateInv_ensureUser db tg inv
      have hmem : ∃ u ∈ (ensureUser db tg).2.users, u.id = (ensureUser db tg).1.id :=
        ⟨(ensureUser db tg).1, ensureUser_mem db tg, rfl⟩
      by_cases ha : a ≤ 0
      · simp only [debit, ha, if_true]
        exact inv1
      · simp only [debit, ha, if_false]
        exact stateInv_insertDW _ _ _ _ _ _ inv1 hmem rfl
  | tip ftg ttg a ms =>
      unfold applyOp
      have inv1 := stateInv_ensureUser db ftg inv
      have inv2 := stateInv_ensureUser (ensureUser db ftg).2 ttg inv1
      cases hres : transfer (ensureUser (ensureUser db ftg).2 ttg).2
          (ensureUser db ftg).1.id (ensureUser (ensureUser db ftg).2 ttg).1.id a ms with
      | error e => simpa [hres] using inv2
      | ok d =>
          simp only [hres]
          have hledger : (ensureUser (ensureUser db ftg).2 ttg).2.ledger = db.ledger := by
            rw [ensureUser_ledger, ensureUser_ledger]
          have hfm : ∃ u ∈ (ensureUser (ensureUser db ftg).2 ttg).2.users,
              u.id = (ensureUser db ftg).1.id :=
            ⟨(ensureUser db ftg).1,
             ensureUser_users_mono _ _ _ (ensureUser_mem db ftg), rfl⟩
          have htm : ∃ u ∈ (ensureUser (ensureUser db ftg).2 ttg).2.users,
              u.id = (ensureUser (ensureUser db ftg).2 ttg).1.id :=
            ⟨(ensureUser (ensureUser db ftg).2 ttg).1, ensureUser_mem _ _, rfl⟩
          have hfresh : tipRefFresh (ensureUser (ensureUser db ftg).2 ttg).2
              (tipRef ms (ensureUser db ftg).1.id
                (ensureUser (ensureUser db ftg).2 ttg).1.id a) = true := by
            rw [tipRefFresh_congr _ db hledger]
            simpa [freshOp] using hf
          exact stateInv_transferOk _ _ _ a ms inv2 hfm htm hfresh d hres

theorem emptyDB_inv : StateInv emptyDB := by
  refine ⟨?_, ?_, ?_, ?_⟩ <;> simp [emptyDB]

theorem stateInv_runOps (db : DB) (ops : List Op) (inv : StateInv db)
    (hf : freshTrace db ops = true) : StateInv (runOps db ops) := by
  induction ops generalizing db with
  | nil => simpa [runOps] using inv
  | cons o rest ih =>
      rw [freshTrace, Bool.and_eq_true] at hf
      rw [runOps, List.foldl_cons]
      exact ih (applyOp db o) (stateInv_applyOp db o inv hf.1) hf.2

/-- C4, amended: for any sequence of deposits, withdrawals and tips in which
every tip's derived idempotency reference is fresh when it executes, the
full-aggregation balance equals the hybrid-accelerator balance for every
user.  (The freshness proviso is forced by the counterexample below: a
replayed tip reference desynchronizes the two models.) -/
theorem c4_balance_equivalence (ops : List Op)
    (h : freshTrace emptyDB ops = true) (uid : Nat) :
    getUserBalanceLites (runOps emptyDB ops) uid =
      balanceLites (runOps emptyDB ops) uid :=
  balance_models_agree _ (stateInv_runOps emptyDB ops emptyDB_inv h) uid

/-- C4 witness: a deposit of 100 to user 1 followed by a fresh 30-lite tip
to user 2; both balance models agree on user 1. -/
theorem c4_balance_equivalence_witness :
    getUserBalanceLites (runOps emptyDB
      [Op.dep 10 100 "t" 0 0, Op.tip 10 20 30 5]) 1 =
    balanceLites (runOps emptyDB
      [Op.dep 10 100 "t" 0 0, Op.tip 10 20 30 5]) 1 :=
  c4_balance_equivalence [Op.dep 10 100 "t" 0 0, Op.tip 10 20 30 5] (by decide) 1

/-- C4, counterexample to the claim as stated: two tips of 10 lites issued in
the same millisecond with the same sender, receiver and amount share one
reference `tip:5:1->2:10`.  The second tip's two ledger inserts are
conflict-ignored, but its accelerator updates still apply, so after the
sequence the full-aggregation balance of user 1 is 90 while the
hybrid-accelerator balance is 80. -/
theorem c4_counterexample :
    getUserBalanceLites (runOps emptyDB
      [Op.dep 10 100 "t" 0 0, Op.tip 10 20 10 5, Op.tip 10 20 10 5]) 1 ≠
    balanceLites (runOps emptyDB
      [Op.dep 10 100 "t" 0 0, Op.tip 10 20 10 5, Op.tip 10 20 10 5]) 1 := by
  decide

-- ---------------------------------------------------------------------------
-- C2: two racing transfers from the same sender
-- ---------------------------------------------------------------------------

/-- The transaction body shared by both transfer revisions (the two
conflict-ignored ledger inserts, the id recovery, the two accelerator
updates and the tips-audit insert) — the writes of `transfer` after its
balance check passed. -/
def transferWrites (db : DB) (fromUserId toUserId : Nat) (amountLites ms : Int) : DB :=
  let ref := tipRef ms fromUserId toUserId amountLites
  let r1 := insertLedger db fromUserId (-amountLites) .tip_out ref ms
  let r2 := insertLedger r1.2 toUserId amountLites .tip_in ref ms
  let outId := match r1.1 with
    | some i => some i
    | none => findLedgerIdByRef r2.2 .tip_out ref
  let inId := match r2.1 with
    | some i => some i
    | none => findLedgerIdByRef r2.2 .tip_in ref
  let db3 := updateTransferred r2.2 fromUserId (-amountLites)
  let db4 := updateTransferred db3 toUserId amountLites
  recordTipAudit db4 fromUserId toUserId amountLites ms outId inId

/-- One in-flight transfer call. -/
structure TThread where
  fromU : Nat
  toU : Nat
  amount : Int
  nowMs : Int
  deriving DecidableEq, Repr

/-- Progress of a call through the UNLOCKED transfer of src/src/ledger.ts:
the `balanceLites` read happens before `BEGIN` with no row lock, so it is a
separate atomic step from the write block. -/
inductive UPhase
  | start
  | writing
  | done (success : Bool)
  deriving DecidableEq, Repr

/-- Interleaving state of two unlocked transfer calls. -/
structure UConfig where
  db : DB
  ph1 : UPhase
  ph2 : UPhase
  deriving DecidableEq, Repr

/-- One scheduler step of the unlocked machine (`i = true` runs thread 1).
Even granting the BEGIN..COMMIT block full atomicity (one step), the
balance check is a distinct earlier step, as in the code. -/
def ustep (t1 t2 : TThread) (c : UConfig) (i : Bool) : UConfig :=
  let t := if i then t1 else t2
  match (if i then c.ph1 else c.ph2) with
  | .start =>
      let ph : UPhase :=
        if balanceLites c.db t.fromU < t.amount then .done false else .writing
      if i then { c with ph1 := ph } else { c with ph2 := ph }
  | .writing =>
      let db' := transferWrites c.db t.fromU t.toU t.amount t.nowMs
      if i then { db := db', ph1 := .done true, ph2 := c.ph2 }
      else { db := db', ph1 := c.ph1, ph2 := .done true }
  | .done _ => c

/-- Run the unlocked machine over a schedule. -/
def urun (t1 t2 : TThread) (c : UConfig) (sched : List Bool) : UConfig :=
  sched.foldl (ustep t1 t2) c

/-- Three users; user 1 holds 100 lites from one deposit. -/
def c2_db0 : DB :=
  { emptyDB with
     users := [⟨1, 10, 0⟩, ⟨2, 20, 0⟩, ⟨3, 30, 0⟩],
     nextUserId := 4,
     ledger := [⟨1, 1, 100, .deposit, .dep "t" 0, 0⟩],
     nextLedgerId := 2 }

/-- C2, counterexample against the live src/src/ledger.ts transfer: user 1
holds 100; two concurrent transfers of 80 each (combined 160 > 100) both
pass the pre-transaction `balanceLites` check under the check-check-write-
write interleaving, BOTH succeed, and the sender's balance ends at −60.
No row lock exists to serialize them, refuting "exactly one succeeds". -/
theorem c2_counterexample :
    (80 : Int) + 80 > 100 ∧
    balanceLites c2_db0 1 = 100 ∧
    (urun ⟨1, 2, 80, 5⟩ ⟨1, 3, 80, 6⟩ ⟨c2_db0, .start, .start⟩
        [true, false, true, false]).ph1 = .done true ∧
    (urun ⟨1, 2, 80, 5⟩ ⟨1, 3, 80, 6⟩ ⟨c2_db0, .start, .start⟩
        [true, false, true, false]).ph2 = .done true ∧
    balanceLites (urun ⟨1, 2, 80, 5⟩ ⟨1, 3, 80, 6⟩ ⟨c2_db0, .start, .start⟩
        [true, false, true, false]).db 1 = -60 := by
  refine ⟨by decide, by decide, by decide, by decide, by decide⟩

-- The LOCKED transfer of the part_013 revision: `SELECT … FOR UPDATE` on the
-- sender row serializes the two calls; while one holds the lock the other's
-- first database action (its own FOR UPDATE) blocks, so its whole
-- check-and-write body runs only after the first commits and releases.

/-- Progress through the locked transfer: acquire the sender-row lock, then
run the body (in-transaction balance check, writes, commit). -/
inductive LPhase
  | start
  | locked
  | done (success : Bool)
  deriving DecidableEq, Repr

/-- Interleaving state of two locked transfer calls; `lock` names the thread
holding the sender-row lock. -/
structure LConfig where
  db : DB
  ph1 : LPhase
  ph2 : LPhase
  lock : Option Bool
  deriving DecidableEq, Repr

/-- The locked body (part_013 transfer, inside BEGIN): recompute the balance
on this connection via `getBalanceLitesWithClient`; on shortfall ROLLBACK and
fail, else perform the writes and COMMIT. -/
def lockedBody (db : DB) (t : TThread) : DB × Bool :=
  if getBalanceLitesWithClient db t.fromU < t.amount then (db, false)
  else (transferWrites db t.fromU t.toU t.amount t.nowMs, true)

/-- One scheduler step of the locked machine.  A thread at `start` acquires
the free lock or blocks (no-op) while the other holds it; the body runs as
one step because the only other actor is provably blocked for its whole
duration (its first action is its own FOR UPDATE on the same row). -/
def lstep (t1 t2 : TThread) (c : LConfig) (i : Bool) : LConfig :=
  let t := if i then t1 else t2
  match (if i then c.ph1 else c.ph2) with
  | .start =>
      match c.lock with
      | none =>
          if i then { c with ph1 := .locked, lock := some true }
          else { c with ph2 := .locked, lock := some false }
      | some _ => c
  | .locked =>
      let r := lockedBody c.db t
      if i then { db := r.1, ph1 := .done r.2, ph2 := c.ph2, lock := none }
      else { db := r.1, ph1 := c.ph1, ph2 := .done r.2, lock := none }
  | .done _ => c

/-- Run the locked machine over a schedule. -/
def lrun (t1 t2 : TThread) (c : LConfig) (sched : List Bool) : LConfig :=
  sched.foldl (lstep t1 t2) c

/-- The per-user effect of a transfer's two accelerator `UPDATE`s. -/
def phiTipFun (f t : Nat) (a : Int) (x : UserRow) : UserRow :=
  let y := if x.id == f then
    { x with transferred_tip_lites := x.transferred_tip_lites + -a } else x
  if y.id == t then
    { y with transferred_tip_lites := y.transferred_tip_lites + a } else y

theorem phiTipFun_id (f t : Nat) (a : Int) (x : UserRow) :
    (phiTipFun f t a x).id = x.id := by
  unfold phiTipFun
  by_cases h1 : (x.id == f) = true <;> by_cases h2 : (x.id == t) = true <;>
    simp [h1, h2]

theorem phiTipFun_tr (f t : Nat) (a : Int) (x : UserRow) :
    (phiTipFun f t a x).transferred_tip_lites =
      x.transferred_tip_lites + (if x.id == f then -a else 0) +
        (if x.id == t then a else 0) := by
  unfold phiTipFun
  by_cases h1 : (x.id == f) = true <;> by_cases h2 : (x.id == t) = true <;>
    simp [h1, h2]

theorem recordTipAudit_users (d : DB) (f t : Nat) (am cr : Int) (o i : Option Nat) :
    (recordTipAudit d f t am cr o i).users = d.users := by
  unfold recordTipAudit
  by_cases hc : d.tips.any (fun tt => tt.ledger_out_id == o && tt.ledger_in_id == i) <;>
    simp [hc]

theorem recordTipAudit_ledger (d : DB) (f t : Nat) (am cr : Int) (o i : Option Nat) :
    (recordTipAudit d f t am cr o i).ledger = d.ledger := by
  unfold recordTipAudit
  by_cases hc : d.tips.any (fun tt => tt.ledger_out_id == o && tt.ledger_in_id == i) <;>
    simp [hc]

theorem insertLedger_users (db : DB) (u : Nat) (δ : Int) (r : Reason) (rf : Ref)
    (t : Int) : (insertLedger db u δ r rf t).2.users = db.users := by
  unfold insertLedger
  by_cases hc : db.ledger.any (fun l => l.reason == r && l.ref == rf) <;> simp [hc]

theorem insertLedger_ledger_ext (db : DB) (u : Nat) (δ : Int) (r : Reason) (rf : Ref)
    (t : Int) : ∃ L : List LedgerRow,
      (insertLedger db u δ r rf t).2.ledger = db.ledger ++ L ∧
      ∀ l ∈ L, l.reason = r ∧ l.ref = rf := by
  unfold insertLedger
  by_cases hc : db.ledger.any (fun l => l.reason == r && l.ref == rf)
  · exact ⟨[], by simp [hc], by simp⟩
  · refine ⟨[⟨db.nextLedgerId, u, δ, r, rf, t⟩], by simp [hc], ?_⟩
    intro l hl
    simp only [List.mem_singleton] at hl
    subst hl
    exact ⟨rfl, rfl⟩

theorem transferWrites_users (db : DB) (f t : Nat) (a ms : Int) :
    (transferWrites db f t a ms).users = db.users.map (phiTipFun f t a) := by
  simp only [transferWrites]
  rw [recordTipAudit_users, updateTransferred_users, updateTransferred_users,
    insertLedger_users, insertLedger_users, List.map_map]
  rfl

theorem transferWrites_ledger_ext (db : DB) (f t : Nat) (a ms : Int) :
    ∃ L : List LedgerRow, (transferWrites db f t a ms).ledger = db.ledger ++ L ∧
      ∀ l ∈ L, l.reason.isDepositWithdrawal = false := by
  simp only [transferWrites]
  rw [recordTipAudit_ledger, updateTransferred_ledger, updateTransferred_ledger]
  obtain ⟨L1, h1, hr1⟩ :=
    insertLedger_ledger_ext db f (-a) .tip_out (tipRef ms f t a) ms
  obtain ⟨L2, h2, hr2⟩ :=
    insertLedger_ledger_ext (insertLedger db f (-a) .tip_out (tipRef ms f t a) ms).2
      t a .tip_in (tipRef ms f t a) ms
  refine ⟨L1 ++ L2, by rw [h2, h1, List.append_assoc], ?_⟩
  intro l hl
  rcases List.mem_append.mp hl with h | h
  · rw [(hr1 l h).1]; rfl
  · rw [(hr2 l h).1]; rfl

theorem caseSum_zero_of_nonmatching (L : List LedgerRow) (u : Nat) (p : Reason → Bool)
    (h : ∀ l ∈ L, p l.reason = false) : caseSum L u p = 0 := by
  induction L with
  | nil => simp [caseSum]
  | cons l tl ih =>
      rw [caseSum_cons]
      have h1 := h l (List.mem_cons_self l tl)
      rw [ih (fun x hx => h x (List.mem_cons_of_mem l hx))]
      simp [h1]

/-- Hybrid balance after a transfer's writes: the sender moves by −a, the
receiver by +a, everyone else is untouched (the two tip ledger rows are
invisible to the deposit/withdrawal sum). -/
theorem hybrid_balance_transferWrites (db : DB) (f t : Nat) (a ms : Int) (uid : Nat)
    (hu : (db.users.find? (fun x => x.id == uid)).isSome = true) :
    getBalanceLitesWithClient (transferWrites db f t a ms) uid =
      getBalanceLitesWithClient db uid +
        (if uid == f then -a else 0) + (if uid == t then a else 0) := by
  obtain ⟨u, hu'⟩ := Option.isSome_iff_exists.mp hu
  have hid : u.id = uid := by
    have h5 := List.find?_some hu'
    simpa using h5
  have hmapfind : ((transferWrites db f t a ms).users).find?
      (fun x => x.id == uid) = some (phiTipFun f t a u) := by
    rw [transferWrites_users, List.find?_map]
    have hcomp : ((fun x : UserRow => x.id == uid) ∘ (phiTipFun f t a)) =
        (fun x : UserRow => x.id == uid) := by
      funext x
      simp [Function.comp, phiTipFun_id]
    rw [hcomp, hu']
    rfl
  obtain ⟨L, hL, hLr⟩ := transferWrites_ledger_ext db f t a ms
  unfold getBalanceLitesWithClient
  rw [hmapfind, hu']
  simp only
  rw [hL, caseSum_append, caseSum_zero_of_nonmatching L uid _ hLr, phiTipFun_tr, hid]
  ring

theorem phiTipFun_comp_pred (f t : Nat) (a : Int) (uid : Nat) :
    ((fun x : UserRow => x.id == uid) ∘ (phiTipFun f t a)) =
      (fun x : UserRow => x.id == uid) := by
  funext x
  simp [Function.comp, phiTipFun_id]

theorem transferWrites_find_isSome (db : DB) (f t : Nat) (a ms : Int) (uid : Nat) :
    ((transferWrites db f t a ms).users.find? (fun x => x.id == uid)).isSome =
      (db.users.find? (fun x => x.id == uid)).isSome := by
  rw [transferWrites_users, List.find?_map, phiTipFun_comp_pred]
  cases db.users.find? (fun x => x.id == uid) <;> simp

/-- The configurations reachable by two locked transfers: `db0` is the
initial store, `D1`/`D2` the store after thread 1 resp. thread 2 committed
first. -/
def LReach (db0 D1 D2 : DB) (c : LConfig) : Prop :=
  c = ⟨db0, .start, .start, none⟩ ∨
  c = ⟨db0, .locked, .start, some true⟩ ∨
  c = ⟨db0, .start, .locked, some false⟩ ∨
  c = ⟨D1, .done true, .start, none⟩ ∨
  c = ⟨D2, .start, .done true, none⟩ ∨
  c = ⟨D1, .done true, .locked, some false⟩ ∨
  c = ⟨D2, .locked, .done true, some true⟩ ∨
  c = ⟨D1, .done true, .done false, none⟩ ∨
  c = ⟨D2, .done false, .done true, none⟩

/-- C2, amended: the locked transfer of the part_013 revision serializes.
For every schedule of two concurrent locked transfer calls from the same
sender A (to recipients other than A), each individually within balance but
jointly exceeding it, whenever both calls complete, exactly one commits and
the other fails its in-transaction balance check (InsufficientBalance). -/
theorem c2_locked_serializes (db0 : DB) (A B C : Nat) (a1 a2 ms1 ms2 : Int)
    (hu : (db0.users.find? (fun x => x.id == A)).isSome = true)
    (hB : B ≠ A) (hC : C ≠ A) (h1p : 0 < a1) (h2p : 0 < a2)
    (h1le : a1 ≤ getBalanceLitesWithClient db0 A)
    (h2le : a2 ≤ getBalanceLitesWithClient db0 A)
    (hsum : getBalanceLitesWithClient db0 A < a1 + a2)
    (sched : List Bool) (s1 s2 : Bool)
    (hdone1 : (lrun ⟨A, B, a1, ms1⟩ ⟨A, C, a2, ms2⟩
        ⟨db0, .start, .start, none⟩ sched).ph1 = .done s1)
    (hdone2 : (lrun ⟨A, B, a1, ms1⟩ ⟨A, C, a2, ms2⟩
        ⟨db0, .start, .start, none⟩ sched).ph2 = .done s2) :
    (s1 = true ∧ s2 = false) ∨ (s1 = false ∧ s2 = true) := by
  set t1 : TThread := ⟨A, B, a1, ms1⟩ with ht1
  set t2 : TThread := ⟨A, C, a2, ms2⟩ with ht2
  set D1 : DB := transferWrites db0 A B a1 ms1 with hD1
  set D2 : DB := transferWrites db0 A C a2 ms2 with hD2
  have hAA : (A == A) = true := by simp
  have hAB : (A == B) = false := by simp [Ne.symm hB]
  have hAC : (A == C) = false := by simp [Ne.symm hC]
  have hbalD1 : getBalanceLitesWithClient D1 A =
      getBalanceLitesWithClient db0 A - a1 := by
    rw [hD1, hybrid_balance_transferWrites db0 A B a1 ms1 A hu, hAA, hAB]
    simp
    ring
  have hbalD2 : getBalanceLitesWithClient D2 A =
      getBalanceLitesWithClient db0 A - a2 := by
    rw [hD2, hybrid_balance_transferWrites db0 A C a2 ms2 A hu, hAA, hAC]
    simp
    ring
  have F1 : lockedBody db0 t1 = (D1, true) := by
    unfold lockedBody
    rw [ht1]
    simp only
    rw [if_neg (not_lt.mpr h1le)]
  have F2 : lockedBody db0 t2 = (D2, true) := by
    unfold lockedBody
    rw [ht2]
    simp only
    rw [if_neg (not_lt.mpr h2le)]
  have F3 : lockedBody D1 t2 = (D1, false) := by
    unfold lockedBody
    rw [ht2]
    simp only
    rw [if_pos (by rw [hbalD1]; omega)]
  have F4 : lockedBody D2 t1 = (D2, false) := by
    unfold lockedBody
    rw [ht1]
    simp only
    rw [if_pos (by rw [hbalD2]; omega)]
  have hstep : ∀ c, LReach db0 D1 D2 c → ∀ i, LReach db0 D1 D2 (lstep t1 t2 c i) := by
    intro c hc i
    unfold LReach at hc ⊢
    rcases hc with rfl | rfl | rfl | rfl | rfl | rfl | rfl | rfl | rfl <;> cases i
    -- from ⟨db0, start, start, none⟩
    · exact Or.inr (Or.inr (Or.inl (by simp [lstep])))
    · exact Or.inr (Or.inl (by simp [lstep]))
    -- from ⟨db0, locked, start, some true⟩
    · exact Or.inr (Or.inl (by simp [lstep]))
    · exact Or.inr (Or.inr (Or.inr (Or.inl (by simp [lstep, F1]))))
    -- from ⟨db0, start, locked, some false⟩
    · exact Or.inr (Or.inr (Or.inr (Or.inr (Or.inl (by simp [lstep, F2])))))
    · exact Or.inr (Or.inr (Or.inl (by simp [lstep])))
    -- from ⟨D1, done true, start, none⟩
    · exact Or.inr (Or.inr (Or.inr (Or.inr (Or.inr (Or.inl (by simp [lstep]))))))
    · exact Or.inr (Or.inr (Or.inr (Or.inl (by simp [lstep]))))
    -- from ⟨D2, start, done true, none⟩
    · exact Or.inr (Or.inr (Or.inr (Or.inr (Or.inl (by simp [lstep])))))
    · exact Or.inr (Or.inr (Or.inr (Or.inr (Or.inr (Or.inr (Or.inl (by simp [lstep])))))))
    -- from ⟨D1, done true, locked, some false⟩
    · exact Or.inr (Or.inr (Or.inr (Or.inr (Or.inr (Or.inr (Or.inr (Or.inl (by simp [lstep, F3]))))))))
    · exact Or.inr (Or.inr (Or.inr (Or.inr (Or.inr (Or.inl (by simp [lstep]))))))
    -- from ⟨D2, locked, done true, some true⟩
    · exact Or.inr (Or.inr (Or.inr (Or.inr (Or.inr (Or.inr (Or.inl (by simp [lstep])))))))
    · exact Or.inr (Or.inr (Or.inr (Or.inr (Or.inr (Or.inr (Or.inr (Or.inr (by simp [lstep, F4]))))))))
    -- from ⟨D1, done true, done false, none⟩
    · exact Or.inr (Or.inr (Or.inr (Or.inr (Or.inr (Or.inr (Or.inr (Or.inl (by simp [lstep]))))))))
    · exact Or.inr (Or.inr (Or.inr (Or.inr (Or.inr (Or.inr (Or.inr (Or.inl (by simp [lstep]))))))))
    -- from ⟨D2, done false, done true, none⟩
    · exact Or.inr (Or.inr (Or.inr (Or.inr (Or.inr (Or.inr (Or.inr (Or.inr (by simp [lstep]))))))))
    · exact Or.inr (Or.inr (Or.inr (Or.inr (Or.inr (Or.inr (Or.inr (Or.inr (by simp [lstep]))))))))
  have hrun : ∀ (s : List Bool) (c : LConfig),
      LReach db0 D1 D2 c → LReach db0 D1 D2 (lrun t1 t2 c s) := by
    intro s
    induction s with
    | nil => intro c hc; exact hc
    | cons b bs ih =>
        intro c hc
        exact ih (lstep t1 t2 c b) (hstep c hc b)
  have hfin := hrun sched ⟨db0, .start, .start, none⟩ (Or.inl rfl)
  unfold LReach at hfin
  rcases hfin with h | h | h | h | h | h | h | h | h <;>
    rw [h] at hdone1 hdone2 <;> simp_all

/-- C2 witness: user 1 holds 100; locked transfers of 80 to users 2 and 3
under the schedule acquire₁·body₁·acquire₂·body₂ end with thread 1 committed
and thread 2 rejected. -/
theorem c2_locked_serializes_witness :
    (true = true ∧ false = false) ∨ (true = false ∧ false = true) :=
  c2_locked_serializes c2_db0 1 2 3 80 80 5 6 (by decide) (by decide) (by decide)
    (by decide) (by decide) (by decide) (by decide) (by decide)
    [true, true, false, false] true false (by decide) (by decide)

-- ---------------------------------------------------------------------------
-- C3: transaction atomicity of the transfer
-- ---------------------------------------------------------------------------

-- src/db.ts runs every statement through `pool.query`, which checks a client
-- out of the pool for that one statement ("transactions in this app are
-- BEGIN/COMMIT via separate calls anyway", src/db.ts).  Under load the
-- statements of one transfer can land on different connections; a statement
-- on a connection with no open transaction autocommits.  We model a pool of
-- `n` connections, each with an optional open-transaction pending state.

/-- The pool: the committed store plus each connection's open transaction. -/
structure PoolSt (n : Nat) where
  committed : DB
  txn : Fin n → Option DB

/-- Run a write statement on connection `c`: inside `c`'s open transaction it
updates the pending state, otherwise it autocommits. -/
def runStmtOn {n : Nat} (st : PoolSt n) (c : Fin n) (f : DB → DB) : PoolSt n :=
  match st.txn c with
  | some pending => { st with txn := Function.update st.txn c (some (f pending)) }
  | none => { st with committed := f st.committed }

/-- Run a value-returning statement on connection `c`. -/
def runValStmt {n : Nat} (st : PoolSt n) (c : Fin n) (f : DB → Option Nat × DB) :
    Option Nat × PoolSt n :=
  match st.txn c with
  | some pending =>
      let r := f pending
      (r.1, { st with txn := Function.update st.txn c (some r.2) })
  | none =>
      let r := f st.committed
      (r.1, { st with committed := r.2 })

/-- `BEGIN` on connection `c`: open a transaction snapshotting the committed
state. -/
def beginOn {n : Nat} (st : PoolSt n) (c : Fin n) : PoolSt n :=
  { st with txn := Function.update st.txn c (some st.committed) }

/-- `COMMIT` on connection `c`: publish its pending state, if any. -/
def commitOn {n : Nat} (st : PoolSt n) (c : Fin n) : PoolSt n :=
  match st.txn c with
  | some pending => { committed := pending, txn := Function.update st.txn c none }
  | none => st

/-- `ROLLBACK` on connection `c`: discard its pending state, if any. -/
def rollbackOn {n : Nat} (st : PoolSt n) (c : Fin n) : PoolSt n :=
  { st with txn := Function.update st.txn c none }

/-- Statements 5–8 of the transfer write block (the two accelerator UPDATEs,
the audit insert and COMMIT), with `vo`/`vi` the recovered ledger ids. -/
def transferTailPool {n : Nat} (stX : PoolSt n) (f t : Nat) (a ms : Int)
    (σ : Nat → Fin n) (failAt : Nat → Bool) (vo vi : Option Nat) : PoolSt n × Bool :=
  if failAt 5 then (rollbackOn stX (σ 9), false) else
  let s5 := runStmtOn stX (σ 5) (fun d => updateTransferred d f (-a))
  if failAt 6 then (rollbackOn s5 (σ 9), false) else
  let s6 := runStmtOn s5 (σ 6) (fun d => updateTransferred d t a)
  if failAt 7 then (rollbackOn s6 (σ 9), false) else
  let s7 := runStmtOn s6 (σ 7) (fun d => recordTipAudit d f t a ms vo vi)
  (commitOn s7 (σ 8), true)

/-- The write block of `transfer` (both revisions), statement by statement:
insert tip_out (1), insert tip_in (2), recover missing ids (3, 4), then the
tail (statements 5–8).  `σ` routes each statement to a connection; `failAt k`
makes the k-th statement raise, after which the code runs ROLLBACK
(statement 9) and rethrows.  The Bool result is true iff committed. -/
def transferBodyPool {n : Nat} (st1 : PoolSt n) (f t : Nat) (a ms : Int)
    (σ : Nat → Fin n) (failAt : Nat → Bool) : PoolSt n × Bool :=
  let ref := tipRef ms f t a
  if failAt 1 then (rollbackOn st1 (σ 9), false) else
  let r1 := runValStmt st1 (σ 1) (fun d => insertLedger d f (-a) .tip_out ref ms)
  if failAt 2 then (rollbackOn r1.2 (σ 9), false) else
  let r2 := runValStmt r1.2 (σ 2) (fun d => insertLedger d t a .tip_in ref ms)
  let ro := match r1.1 with
    | some i => ((some i : Option Nat), r2.2)
    | none => runValStmt r2.2 (σ 3) (fun d => (findLedgerIdByRef d .tip_out ref, d))
  let ri := match r2.1 with
    | some i => ((some i : Option Nat), ro.2)
    | none => runValStmt ro.2 (σ 4) (fun d => (findLedgerIdByRef d .tip_in ref, d))
  transferTailPool ri.2 f t a ms σ failAt ro.1 ri.1

/-- The live src/src/ledger.ts transfer over the pool: the balance was
checked before any transaction; `BEGIN` (statement 0) runs wherever the pool
puts it, and the body statements likewise. -/
def transferV1Pool (n : Nat) (db0 : DB) (f t : Nat) (a ms : Int)
    (σ : Nat → Fin n) (failAt : Nat → Bool) : PoolSt n × Bool :=
  let st1 := beginOn (⟨db0, fun _ => none⟩ : PoolSt n) (σ 0)
  transferBodyPool st1 f t a ms σ failAt

/-- The part_013 revision: `withClient` pins the whole call to one client
`c`; BEGIN, the row lock, the in-transaction balance check and every write
run there. -/
def transferV2Client (n : Nat) (db0 : DB) (f t : Nat) (a ms : Int) (c : Fin n)
    (failAt : Nat → Bool) : PoolSt n × Bool :=
  let st1 := beginOn (⟨db0, fun _ => none⟩ : PoolSt n) c
  let balVal := match st1.txn c with
    | some d => getBalanceLitesWithClient d f
    | none => getBalanceLitesWithClient st1.committed f
  if balVal < a then (rollbackOn st1 c, false)
  else transferBodyPool st1 f t a ms (fun _ => c) failAt

/-- C3, counterexample against the pooled revision: route `BEGIN` to
connection 0 and every later statement to connection 1 (each `pool.query`
may use a different client), and let the receiver-side accelerator UPDATE
(statement 6) fail.  The inserts and the sender debit autocommitted on
connection 1, the ROLLBACK finds only the empty transaction on connection 0,
and the final COMMITTED state shows a partial transfer: the tip_out row is
present, the sender balance already dropped from 100 to 70, yet the receiver
got nothing and no audit row exists. -/
theorem c3_counterexample :
    (transferV1Pool 2 c2_db0 1 2 30 9
        (fun k => if k == 0 then 0 else 1) (fun k => k == 6)).2 = false ∧
    ((transferV1Pool 2 c2_db0 1 2 30 9
        (fun k => if k == 0 then 0 else 1) (fun k => k == 6)).1.committed.ledger.any
      (fun l => l.reason == Reason.tip_out && l.ref == tipRef 9 1 2 30)) = true ∧
    balanceLites (transferV1Pool 2 c2_db0 1 2 30 9
        (fun k => if k == 0 then 0 else 1) (fun k => k == 6)).1.committed 1 = 70 ∧
    balanceLites (transferV1Pool 2 c2_db0 1 2 30 9
        (fun k => if k == 0 then 0 else 1) (fun k => k == 6)).1.committed 2 = 0 ∧
    (transferV1Pool 2 c2_db0 1 2 30 9
        (fun k => if k == 0 then 0 else 1) (fun k => k == 6)).1.committed.tips = [] := by
  refine ⟨by decide, by decide, by decide, by decide, by decide⟩

theorem pool_P_runVal {n : Nat} (st : PoolSt n) (c : Fin n)
    (g : DB → Option Nat × DB) (h : (st.txn c).isSome = true) :
    (runValStmt st c g).2.committed = st.committed ∧
    ((runValStmt st c g).2.txn c).isSome = true := by
  obtain ⟨d, hd⟩ := Option.isSome_iff_exists.mp h
  unfold runValStmt
  rw [hd]
  exact ⟨rfl, by simp [Function.update_same]⟩

theorem pool_P_runStmt {n : Nat} (st : PoolSt n) (c : Fin n)
    (g : DB → DB) (h : (st.txn c).isSome = true) :
    (runStmtOn st c g).committed = st.committed ∧
    ((runStmtOn st c g).txn c).isSome = true := by
  obtain ⟨d, hd⟩ := Option.isSome_iff_exists.mp h
  unfold runStmtOn
  rw [hd]
  exact ⟨rfl, by simp [Function.update_same]⟩

theorem transferTailPool_const_atomic {n : Nat} (stX : PoolSt n) (f t : Nat)
    (a ms : Int) (c : Fin n) (failAt : Nat → Bool) (vo vi : Option Nat)
    (hsome : (stX.txn c).isSome = true) :
    ((transferTailPool stX f t a ms (fun _ => c) failAt vo vi).2 = false ∧
      (transferTailPool stX f t a ms (fun _ => c) failAt vo vi).1.committed =
        stX.committed) ∨
    (transferTailPool stX f t a ms (fun _ => c) failAt vo vi).2 = true := by
  simp only [transferTailPool]
  by_cases h5 : failAt 5 = true
  · simp only [h5, if_true]
    exact Or.inl ⟨by trivial, rfl⟩
  have h5' : failAt 5 = false := by simpa using h5
  simp only [h5', Bool.false_eq_true, if_false]
  have p5 := pool_P_runStmt stX c (fun d => updateTransferred d f (-a)) hsome
  by_cases h6 : failAt 6 = true
  · simp only [h6, if_true]
    exact Or.inl ⟨by trivial, p5.1⟩
  have h6' : failAt 6 = false := by simpa using h6
  simp only [h6', Bool.false_eq_true, if_false]
  have p6 := pool_P_runStmt (runStmtOn stX c (fun d => updateTransferred d f (-a)))
    c (fun d => updateTransferred d t a) p5.2
  by_cases h7 : failAt 7 = true
  · simp only [h7, if_true]
    exact Or.inl ⟨by trivial, p6.1.trans p5.1⟩
  have h7' : failAt 7 = false := by simpa using h7
  simp only [h7', Bool.false_eq_true, if_false]
  exact Or.inr (by trivial)

theorem transferBodyPool_const_atomic {n : Nat} (st1 : PoolSt n) (f t : Nat)
    (a ms : Int) (c : Fin n) (failAt : Nat → Bool)
    (h : (st1.txn c).isSome = true) :
    ((transferBodyPool st1 f t a ms (fun _ => c) failAt).2 = false ∧
      (transferBodyPool st1 f t a ms (fun _ => c) failAt).1.committed =
        st1.committed) ∨
    (transferBodyPool st1 f t a ms (fun _ => c) failAt).2 = true := by
  simp only [transferBodyPool]
  by_cases h1 : failAt 1 = true
  · simp only [h1, if_true]
    exact Or.inl ⟨by trivial, rfl⟩
  have h1' : failAt 1 = false := by simpa using h1
  simp only [h1', Bool.false_eq_true, if_false]
  have p1 := pool_P_runVal st1 c
    (fun d => insertLedger d f (-a) Reason.tip_out (tipRef ms f t a) ms) h
  by_cases h2 : failAt 2 = true
  · simp only [h2, if_true]
    exact Or.inl ⟨by trivial, p1.1⟩
  have h2' : failAt 2 = false := by simpa using h2
  simp only [h2', Bool.false_eq_true, if_false]
  have p2 := pool_P_runVal _ c
    (fun d => insertLedger d t a Reason.tip_in (tipRef ms f t a) ms) p1.2
  have q2 := p2.1.trans p1.1
  cases hv1 : (runValStmt st1 c
      (fun d => insertLedger d f (-a) Reason.tip_out (tipRef ms f t a) ms)).1 with
  | none =>
      simp only [hv1]
      have p3 := pool_P_runVal _ c
        (fun d => (findLedgerIdByRef d Reason.tip_out (tipRef ms f t a), d)) p2.2
      cases hv2 : (runValStmt (runValStmt st1 c
          (fun d => insertLedger d f (-a) Reason.tip_out (tipRef ms f t a) ms)).2 c
          (fun d => insertLedger d t a Reason.tip_in (tipRef ms f t a) ms)).1 with
      | none =>
          simp only [hv2]
          have p4 := pool_P_runVal _ c
            (fun d => (findLedgerIdByRef d Reason.tip_in (tipRef ms f t a), d)) p3.2
          exact Or.imp (fun hc => ⟨hc.1, hc.2.trans (p4.1.trans (p3.1.trans q2))⟩) id
            (transferTailPool_const_atomic _ f t a ms c failAt _ _ p4.2)
      | some i2 =>
          simp only [hv2]
          exact Or.imp (fun hc => ⟨hc.1, hc.2.trans (p3.1.trans q2)⟩) id
            (transferTailPool_const_atomic _ f t a ms c failAt _ _ p3.2)
  | some i1 =>
      simp only [hv1]
      cases hv2 : (runValStmt (runValStmt st1 c
          (fun d => insertLedger d f (-a) Reason.tip_out (tipRef ms f t a) ms)).2 c
          (fun d => insertLedger d t a Reason.tip_in (tipRef ms f t a) ms)).1 with
      | none =>
          simp only [hv2]
          have p4 := pool_P_runVal _ c
            (fun d => (findLedgerIdByRef d Reason.tip_in (tipRef ms f t a), d)) p2.2
          exact Or.imp (fun hc => ⟨hc.1, hc.2.trans (p4.1.trans q2)⟩) id
            (transferTailPool_const_atomic _ f t a ms c failAt _ _ p4.2)
      | some i2 =>
          simp only [hv2]
          exact Or.imp (fun hc => ⟨hc.1, hc.2.trans q2⟩) id
            (transferTailPool_const_atomic _ f t a ms c failAt _ _ p2.2)


/-- C3, amended: in the `withClient` revision (part_013), where every
statement of the transfer runs on ONE pooled client, a failure at any point
before COMMIT — the balance shortfall, either ledger insert, either
accelerator update, or the audit insert — leaves the committed store exactly
as it was: no partial transfer is observable.  (The pooled revision violates
this; see the counterexample.) -/
theorem c3_v2_atomic (n : Nat) (db0 : DB) (f t : Nat) (a ms : Int) (c : Fin n)
    (failAt : Nat → Bool)
    (hfail : (transferV2Client n db0 f t a ms c failAt).2 = false) :
    (transferV2Client n db0 f t a ms c failAt).1.committed = db0 := by
  unfold transferV2Client at hfail ⊢
  by_cases hb : (match (beginOn (⟨db0, fun _ => none⟩ : PoolSt n) c).txn c with
      | some d => getBalanceLitesWithClient d f
      | none => getBalanceLitesWithClient
          (beginOn (⟨db0, fun _ => none⟩ : PoolSt n) c).committed f) < a
  · simp only [hb, if_true]
    rfl
  · simp only [hb, if_false] at hfail ⊢
    have hsome : ((beginOn (⟨db0, fun _ => none⟩ : PoolSt n) c).txn c).isSome = true := by
      simp [beginOn, Function.update_same]
    rcases transferBodyPool_const_atomic
        (beginOn (⟨db0, fun _ => none⟩ : PoolSt n) c) f t a ms c failAt hsome with
      hcase | hcase
    · exact hcase.2
    · rw [hcase] at hfail
      exact absurd hfail (by simp)

/-- C3 witness for the amended atomicity statement: a concrete failure at
the audit insert (statement 7) on a single client leaves the committed
store untouched. -/
theorem c3_v2_atomic_witness :
    (transferV2Client 2 c2_db0 1 2 30 9 0 (fun k => k == 7)).1.committed = c2_db0 :=
  c3_v2_atomic 2 c2_db0 1 2 30 9 0 (fun k => k == 7) (by decide)

-- ---------------------------------------------------------------------------
-- C5 / C7: the deposit reconciliation scans (src/worker.ts)
-- ---------------------------------------------------------------------------

/-- One entry of the node's `listtransactions` result.  `amountLites` stands
for `BigInt(Math.round(t.amount * 1e8))`; the float conversion itself is not
at issue in any claim. -/
structure TxItem where
  address : String
  category : String
  amountLites : Int
  label : Option String
  confirmations : Int
  txid : String
  vout : Nat
  deriving DecidableEq, Repr

/-- `t.label && /^\d+$/.test(String(t.label))`. -/
def isNumericLabel : Option String → Bool
  | none => false
  | some s => !s.isEmpty && s.toList.all (fun ch => ch.isDigit)

/-- `Number(t.label)` for a digits-only label. -/
def strToNat (s : String) : Nat :=
  s.toList.foldl (fun a ch => 10 * a + (ch.toNat - 48)) 0

/-- `SELECT 1 FROM deposits WHERE txid = $1 AND vout = $2`. -/
def depositExists (db : DB) (txid : String) (vout : Nat) : Bool :=
  db.deposits.any (fun d => d.txid == txid && d.vout == vout)

/-- Deposit rows for one output, list level. -/
def depRowCountL (ds : List DepositRow) (txid : String) (vout : Nat) : Nat :=
  (ds.filter (fun d => d.txid == txid && d.vout == vout)).length

/-- Number of Deposit rows recorded for one output. -/
def depositRowCount (db : DB) (txid : String) (vout : Nat) : Nat :=
  depRowCountL db.deposits txid vout

/-- Ledger postings with reason `deposit` and ref `txid:vout`, list level. -/
def ledDepCountL (L : List LedgerRow) (txid : String) (vout : Nat) : Nat :=
  (L.filter (fun l =>
    l.reason == Reason.deposit && l.ref == Ref.dep txid vout)).length

/-- Number of ledger postings with reason `deposit` and ref `txid:vout`. -/
def ledgerDepositCount (db : DB) (txid : String) (vout : Nat) : Nat :=
  ledDepCountL db.ledger txid vout

/-- Process one filtered receive item (src/worker.ts scanOnceRpc loop body):
skip wallet-internal change (`gettransaction` shows a send leg), skip an
already-recorded (txid, vout), otherwise `ensureUser` and then — in one
transaction — insert the Deposit row and credit the ledger (a thrown error
rolls both writes back; `ensureUser` ran before the BEGIN and stays). -/
def processRpcItem (getTxHasSend : String → Bool) (db : DB) (t : TxItem) : DB :=
  if getTxHasSend t.txid then db
  else if depositExists db t.txid t.vout then db
  else
    let r := ensureUser db (strToNat (t.label.getD ""))
    let dbIns := { r.2 with deposits := r.2.deposits ++
      [⟨r.1.id, t.txid, t.vout, t.amountLites, t.confirmations, true⟩] }
    match credit dbIns r.1.id t.amountLites .deposit (.dep t.txid t.vout) 0 with
    | .ok p => p.2
    | .error _ => r.2

/-- `scanOnceRpc` (src/worker.ts): keep receives with enough confirmations
and a numeric label, then process each in order. -/
def scanOnceRpc (db : DB) (txs : List TxItem) (getTxHasSend : String → Bool)
    (minConf : Int) : DB :=
  (txs.filter (fun t => t.category == "receive" &&
    decide (minConf ≤ t.confirmations) && isNumericLabel t.label)).foldl
    (processRpcItem getTxHasSend) db

/-- An output of an explorer (Esplora) transaction. -/
structure ExplorerVout where
  scriptpubkey_address : Option String
  value : Int
  deriving DecidableEq, Repr

/-- An explorer transaction; `block_height` encodes
`tx.status.block_height || 0` (0 when absent). -/
structure ExplorerTx where
  txid : String
  vout : List ExplorerVout
  confirmed : Bool
  block_height : Nat
  deriving DecidableEq, Repr

/-- `const conf = h ? Math.max(0, tip - h + 1) : 0`. -/
def explorerConf (tip : Int) (h : Nat) : Int :=
  if h = 0 then 0 else max 0 (tip - (h : Int) + 1)

/-- Process one output of a confirmed explorer transaction (src/worker.ts
scanOnceExplorer inner loop): skip outputs paying another address, skip an
already-recorded (txid, vout), otherwise insert the Deposit row and credit
the ledger in one transaction (rollback on error). -/
def processExplorerVout (user_id : Nat) (address txid : String) (conf : Int)
    (db : DB) (iv : Nat × ExplorerVout) : DB :=
  if !(iv.2.scriptpubkey_address == some address) then db
  else if depositExists db txid iv.1 then db
  else
    let dbIns := { db with deposits := db.deposits ++
      [⟨user_id, txid, iv.1, iv.2.value, conf, true⟩] }
    match credit dbIns user_id iv.2.value .deposit (.dep txid iv.1) 0 with
    | .ok p => p.2
    | .error _ => db

/-- Process one explorer transaction for a watched address: only confirmed
transactions at or above the threshold are considered. -/
def processExplorerTx (minConf tip : Int) (user_id : Nat) (address : String)
    (db : DB) (tx : ExplorerTx) : DB :=
  if !tx.confirmed then db
  else if explorerConf tip tx.block_height < minConf then db
  else tx.vout.enum.foldl (processExplorerVout user_id address tx.txid
    (explorerConf tip tx.block_height)) db

/-- `scanOnceExplorer` (src/worker.ts): for every watched address, fetch its
transactions and process them.  NB: unlike the RPC path there is NO
wallet-internal-change check here — the explorer data carries no send-leg
information. -/
def scanOnceExplorer (db : DB) (tip : Int)
    (getAddressTxs : String → List ExplorerTx) (minConf : Int) : DB :=
  db.walletAddresses.foldl (fun dbA ua =>
    (getAddressTxs ua.2).foldl
      (processExplorerTx minConf tip ua.1 ua.2) dbA) db

theorem ensureUser_deposits (db : DB) (tg : Nat) :
    (ensureUser db tg).2.deposits = db.deposits := by
  unfold ensureUser
  cases db.users.find? (fun u => u.tg_user_id == tg) <;> rfl

theorem insertLedger_deposits (db : DB) (u : Nat) (δ : Int) (r : Reason) (rf : Ref)
    (t : Int) : (insertLedger db u δ r rf t).2.deposits = db.deposits := by
  unfold insertLedger
  by_cases hc : db.ledger.any (fun l => l.reason == r && l.ref == rf) <;> simp [hc]

theorem depRowCountL_append (d1 d2 : List DepositRow) (txid : String) (v : Nat) :
    depRowCountL (d1 ++ d2) txid v = depRowCountL d1 txid v + depRowCountL d2 txid v := by
  simp [depRowCountL, List.filter_append]

theorem depRowCountL_single (row : DepositRow) (txid : String) (v : Nat) :
    depRowCountL [row] txid v = if row.txid = txid ∧ row.vout = v then 1 else 0 := by
  by_cases h1 : row.txid = txid <;> by_cases h2 : row.vout = v <;>
    simp [depRowCountL, List.filter_cons, h1, h2]

theorem ledDepCountL_append (L1 L2 : List LedgerRow) (txid : String) (v : Nat) :
    ledDepCountL (L1 ++ L2) txid v = ledDepCountL L1 txid v + ledDepCountL L2 txid v := by
  simp [ledDepCountL, List.filter_append]

theorem ledDepCountL_single (row : LedgerRow) (txid : String) (v : Nat) :
    ledDepCountL [row] txid v =
      if row.reason = Reason.deposit ∧ row.ref = Ref.dep txid v then 1 else 0 := by
  by_cases h1 : row.reason = Reason.deposit <;> by_cases h2 : row.ref = Ref.dep txid v <;>
    simp [ledDepCountL, List.filter_cons, h1, h2]

theorem depositExists_false_iff (db : DB) (txid : String) (v : Nat) :
    depositExists db txid v = false ↔ depositRowCount db txid v = 0 := by
  unfold depositExists depositRowCount depRowCountL
  rw [List.any_eq_false, List.length_eq_zero, List.filter_eq_nil]

theorem ledgerDepAny_false_iff (db : DB) (txid : String) (v : Nat) :
    (db.ledger.any (fun l =>
      l.reason == Reason.deposit && l.ref == Ref.dep txid v)) = false ↔
    ledgerDepositCount db txid v = 0 := by
  unfold ledgerDepositCount ledDepCountL
  rw [List.any_eq_false, List.length_eq_zero, List.filter_eq_nil]

/-- The per-output pair of at-most-once states: not yet recorded, or recorded
exactly once in both tables. -/
def pairZero (db : DB) (txid : String) (v : Nat) : Prop :=
  depositRowCount db txid v = 0 ∧ ledgerDepositCount db txid v = 0

def pairOne (db : DB) (txid : String) (v : Nat) : Prop :=
  depositRowCount db txid v = 1 ∧ ledgerDepositCount db txid v = 1

def pairOnce (db : DB) (txid : String) (v : Nat) : Prop :=
  pairZero db txid v ∨ pairOne db txid v

/-- The effect of the single crediting transaction on the two counters:
an item with another key changes nothing at the target key; a qualifying
item moves a fresh key from (0,0) to (1,1); a key already recorded once
stays recorded once. -/
theorem processRpcItem_counts (gts : String → Bool) (db : DB) (t : TxItem)
    (txid : String) (v : Nat) :
    (¬(t.txid = txid ∧ t.vout = v) →
      depositRowCount (processRpcItem gts db t) txid v = depositRowCount db txid v ∧
      ledgerDepositCount (processRpcItem gts db t) txid v = ledgerDepositCount db txid v) ∧
    (t.txid = txid ∧ t.vout = v → gts t.txid = false → 0 < t.amountLites →
      pairZero db txid v → pairOne (processRpcItem gts db t) txid v) ∧
    (pairOne db txid v →
      depositRowCount (processRpcItem gts db t) txid v = depositRowCount db txid v ∧
      ledgerDepositCount (processRpcItem gts db t) txid v = ledgerDepositCount db txid v) := by
  have hedep := ensureUser_deposits db (strToNat (t.label.getD ""))
  have heled := ensureUser_ledger db (strToNat (t.label.getD ""))
  by_cases hk : t.txid = txid ∧ t.vout = v
  · -- the item hits the target key
    obtain ⟨hk1, hk2⟩ := hk
    subst hk1
    subst hk2
    have main : ∀ hG : Prop, True := fun _ => trivial
    refine ⟨fun hne => absurd ⟨rfl, rfl⟩ hne, fun _ hsend hpos h0 => ?_, fun h1 => ?_⟩
    · -- progress from a fresh key
      obtain ⟨hd0, hl0⟩ := h0
      have hex : depositExists db t.txid t.vout = false :=
        (depositExists_false_iff db t.txid t.vout).mpr hd0
      unfold processRpcItem
      simp only [hsend, Bool.false_eq_true, if_false, hex]
      have hnl : ¬ t.amountLites ≤ 0 := by omega
      simp only [credit, hnl, if_false]
      have hconf : ({ ensureUser db (strToNat (t.label.getD "")) |>.2 with
          deposits := (ensureUser db (strToNat (t.label.getD ""))).2.deposits ++
            [⟨(ensureUser db (strToNat (t.label.getD ""))).1.id, t.txid, t.vout,
              t.amountLites, t.confirmations, true⟩] } : DB).ledger.any
          (fun l => l.reason == Reason.deposit && l.ref == Ref.dep t.txid t.vout) = false := by
        simp only [heled]
        exact (ledgerDepAny_false_iff db t.txid t.vout).mpr hl0
      simp only [insertLedger, hconf, Bool.false_eq_true, if_false]
      constructor
      · simp only [depositRowCount]
        rw [depRowCountL_append, hedep, depRowCountL_single]
        simp only [depositRowCount] at hd0
        simp [hd0]
      · simp only [ledgerDepositCount]
        rw [ledDepCountL_append]
        simp only [heled]
        rw [ledDepCountL_single]
        simp only [ledgerDepositCount] at hl0
        simp [hl0]
    · -- the key is already recorded once: the exists-check short-circuits
      have hd1 := h1.1
      have hex : depositExists db t.txid t.vout = true := by
        cases hexv : depositExists db t.txid t.vout with
        | true => rfl
        | false =>
            have := (depositExists_false_iff db t.txid t.vout).mp hexv
            rw [this] at hd1
            exact absurd hd1 (by omega)
      unfold processRpcItem
      by_cases hsend : gts t.txid = true
      · simp [hsend]
      · have hsend2 : gts t.txid = false := by simpa using hsend
        simp [hsend2, hex]
  · -- the item has another key: nothing at the target key moves
    have hrowne : ¬(t.txid = txid ∧ t.vout = v) := hk
    have hrefne : Ref.dep t.txid t.vout ≠ Ref.dep txid v := by
      intro hcontra
      injection hcontra with ha hb
      exact hk ⟨ha, hb⟩
    have unchanged :
        depositRowCount (processRpcItem gts db t) txid v = depositRowCount db txid v ∧
        ledgerDepositCount (processRpcItem gts db t) txid v = ledgerDepositCount db txid v := by
      unfold processRpcItem
      by_cases hsend : gts t.txid = true
      · simp [hsend]
      have hsend2 : gts t.txid = false := by simpa using hsend
      simp only [hsend2, Bool.false_eq_true, if_false]
      by_cases hex : depositExists db t.txid t.vout = true
      · simp [hex]
      have hex2 : depositExists db t.txid t.vout = false := by simpa using hex
      simp only [hex2, Bool.false_eq_true, if_false]
      by_cases hamt : t.amountLites ≤ 0
      · simp only [credit, hamt, if_true]
        constructor <;> simp [depositRowCount, ledgerDepositCount, hedep, heled]
      simp only [credit, hamt, if_false]
      obtain ⟨L, hL, hLr⟩ := insertLedger_ledger_ext
        ({ (ensureUser db (strToNat (t.label.getD ""))).2 with
           deposits := (ensureUser db (strToNat (t.label.getD ""))).2.deposits ++
             [⟨(ensureUser db (strToNat (t.label.getD ""))).1.id, t.txid, t.vout,
               t.amountLites, t.confirmations, true⟩] } : DB)
        (ensureUser db (strToNat (t.label.getD ""))).1.id t.amountLites
        Reason.deposit (Ref.dep t.txid t.vout) 0
      constructor
      · simp only [depositRowCount]
        rw [insertLedger_deposits]
        simp only
        rw [depRowCountL_append, hedep, depRowCountL_single]
        simp [hrowne]
      · simp only [ledgerDepositCount]
        rw [hL]
        simp only [heled]
        rw [ledDepCountL_append]
        have hz : ledDepCountL L txid v = 0 := by
          unfold ledDepCountL
          rw [List.length_eq_zero, List.filter_eq_nil]
          intro l hl
          have := (hLr l hl).2
          simp [this, hrefne]
        rw [hz]
        omega
    exact ⟨fun _ => unchanged, fun hk2 => absurd hk2 hk, fun _ => unchanged⟩

theorem foldl_pairOnce_preserve {α : Type} (step : DB → α → DB) (txid : String)
    (v : Nat)
    (h0 : ∀ db x, pairZero db txid v →
      pairZero (step db x) txid v ∨ pairOne (step db x) txid v)
    (h1 : ∀ db x, pairOne db txid v → pairOne (step db x) txid v) :
    (∀ (l : List α) (db : DB), pairOnce db txid v →
      pairOnce (l.foldl step db) txid v) ∧
    (∀ (l : List α) (db : DB), pairOne db txid v →
      pairOne (l.foldl step db) txid v) := by
  have hone : ∀ (l : List α) (db : DB), pairOne db txid v →
      pairOne (l.foldl step db) txid v := by
    intro l
    induction l with
    | nil => intro db h; exact h
    | cons hd tl ih =>
        intro db h
        rw [List.foldl_cons]
        exact ih _ (h1 db hd h)
  refine ⟨?_, hone⟩
  intro l
  induction l with
  | nil => intro db h; exact h
  | cons hd tl ih =>
      intro db h
      rw [List.foldl_cons]
      rcases h with h | h
      · rcases h0 db hd h with h2 | h2
        · exact ih _ (Or.inl h2)
        · exact Or.inr (hone tl _ h2)
      · exact Or.inr (hone tl _ (h1 db hd h))

theorem foldl_pair_progress {α : Type} (step : DB → α → DB) (txid : String)
    (v : Nat)
    (h0 : ∀ db x, pairZero db txid v →
      pairZero (step db x) txid v ∨ pairOne (step db x) txid v)
    (h1 : ∀ db x, pairOne db txid v → pairOne (step db x) txid v)
    (l : List α) (x : α) (hx : x ∈ l)
    (hprog : ∀ db, pairZero db txid v → pairOne (step db x) txid v)
    (db : DB) (h : pairOnce db txid v) : pairOne (l.foldl step db) txid v := by
  obtain ⟨l1, l2, rfl⟩ := List.append_of_mem hx
  rw [List.foldl_append, List.foldl_cons]
  have hmid := (foldl_pairOnce_preserve step txid v h0 h1).1 l1 db h
  have hone := (foldl_pairOnce_preserve step txid v h0 h1).2
  rcases hmid with hm | hm
  · exact hone l2 _ (hprog _ hm)
  · exact hone l2 _ (h1 _ x hm)

theorem foldl_counts_const {α : Type} (step : DB → α → DB) (txid : String)
    (v : Nat) (l : List α)
    (h : ∀ db x, x ∈ l →
      depositRowCount (step db x) txid v = depositRowCount db txid v ∧
      ledgerDepositCount (step db x) txid v = ledgerDepositCount db txid v) :
    ∀ db : DB,
      depositRowCount (l.foldl step db) txid v = depositRowCount db txid v ∧
      ledgerDepositCount (l.foldl step db) txid v = ledgerDepositCount db txid v := by
  induction l with
  | nil => intro db; exact ⟨rfl, rfl⟩
  | cons hd tl ih =>
      intro db
      rw [List.foldl_cons]
      have h1 := h db hd (List.mem_cons_self hd tl)
      have h2 := ih (fun dbx x hx => h dbx x (List.mem_cons_of_mem hd hx))
        (step db hd)
      exact ⟨h2.1.trans h1.1, h2.2.trans h1.2⟩

theorem processRpcItem_pair0 (gts : String → Bool) (txid : String) (v : Nat)
    (db : DB) (t : TxItem) (h : pairZero db txid v) :
    pairZero (processRpcItem gts db t) txid v ∨
    pairOne (processRpcItem gts db t) txid v := by
  by_cases hk : t.txid = txid ∧ t.vout = v
  · obtain ⟨hk1, hk2⟩ := hk
    subst hk1
    subst hk2
    by_cases hsend : gts t.txid = true
    · left
      unfold processRpcItem
      simp only [hsend, if_true]
      exact h
    have hsend2 : gts t.txid = false := by simpa using hsend
    by_cases hamt : t.amountLites ≤ 0
    · left
      have hex : depositExists db t.txid t.vout = false :=
        (depositExists_false_iff db t.txid t.vout).mpr h.1
      unfold processRpcItem
      simp only [hsend2, Bool.false_eq_true, if_false, hex, credit, hamt, if_true]
      constructor
      · simp only [depositRowCount, ensureUser_deposits]
        exact h.1
      · simp only [ledgerDepositCount, ensureUser_ledger]
        exact h.2
    · right
      exact (processRpcItem_counts gts db t t.txid t.vout).2.1 ⟨rfl, rfl⟩ hsend2
        (by omega) h
  · left
    have hc := (processRpcItem_counts gts db t txid v).1 hk
    exact ⟨hc.1.trans h.1, hc.2.trans h.2⟩

theorem processRpcItem_pair1 (gts : String → Bool) (txid : String) (v : Nat)
    (db : DB) (t : TxItem) (h : pairOne db txid v) :
    pairOne (processRpcItem gts db t) txid v := by
  have hc := (processRpcItem_counts gts db t txid v).2.2 h
  exact ⟨hc.1.trans h.1, hc.2.trans h.2⟩

/-- Counter effects of one explorer output, mirroring `processRpcItem_counts`. -/
theorem processExplorerVout_counts (uid : Nat) (address txid0 : String)
    (conf : Int) (db : DB) (iv : Nat × ExplorerVout) (txid : String) (v : Nat) :
    (¬(txid0 = txid ∧ iv.1 = v) →
      depositRowCount (processExplorerVout uid address txid0 conf db iv) txid v =
        depositRowCount db txid v ∧
      ledgerDepositCount (processExplorerVout uid address txid0 conf db iv) txid v =
        ledgerDepositCount db txid v) ∧
    (txid0 = txid ∧ iv.1 = v →
      iv.2.scriptpubkey_address = some address → 0 < iv.2.value →
      pairZero db txid v →
      pairOne (processExplorerVout uid address txid0 conf db iv) txid v) ∧
    (pairOne db txid v →
      depositRowCount (processExplorerVout uid address txid0 conf db iv) txid v =
        depositRowCount db txid v ∧
      ledgerDepositCount (processExplorerVout uid address txid0 conf db iv) txid v =
        ledgerDepositCount db txid v) := by
  by_cases haddr : (iv.2.scriptpubkey_address == some address) = true
  · simp only [processExplorerVout, haddr, Bool.not_true, Bool.false_eq_true, if_false]
    by_cases hk : txid0 = txid ∧ iv.1 = v
    · obtain ⟨hk1, hk2⟩ := hk
      subst hk1
      subst hk2
      refine ⟨fun hne => absurd ⟨rfl, rfl⟩ hne, fun _ _ hpos h0 => ?_, fun h1 => ?_⟩
      · have hex : depositExists db txid0 iv.1 = false :=
          (depositExists_false_iff db txid0 iv.1).mpr h0.1
        simp only [hex, Bool.false_eq_true, if_false]
        have hnl : ¬ iv.2.value ≤ 0 := by omega
        simp only [credit, hnl, if_false]
        have hconf2 : ({ db with deposits := db.deposits ++
            [⟨uid, txid0, iv.1, iv.2.value, conf, true⟩] } : DB).ledger.any
            (fun l => l.reason == Reason.deposit && l.ref == Ref.dep txid0 iv.1) =
            false := by
          simp only
          exact (ledgerDepAny_false_iff db txid0 iv.1).mpr h0.2
        simp only [insertLedger, hconf2, Bool.false_eq_true, if_false]
        constructor
        · simp only [depositRowCount]
          rw [depRowCountL_append, depRowCountL_single]
          have hd0 := h0.1
          simp only [depositRowCount] at hd0
          simp [hd0]
        · simp only [ledgerDepositCount]
          rw [ledDepCountL_append, ledDepCountL_single]
          have hl0 := h0.2
          simp only [ledgerDepositCount] at hl0
          simp [hl0]
      · have hd1 := h1.1
        have hex : depositExists db txid0 iv.1 = true := by
          cases hexv : depositExists db txid0 iv.1 with
          | true => rfl
          | false =>
              have := (depositExists_false_iff db txid0 iv.1).mp hexv
              rw [this] at hd1
              exact absurd hd1 (by omega)
        simp [hex]
    · have hrefne : Ref.dep txid0 iv.1 ≠ Ref.dep txid v := by
        intro hcontra
        injection hcontra with ha hb
        exact hk ⟨ha, hb⟩
      have unchanged :
          depositRowCount (if depositExists db txid0 iv.1 = true then db
            else match credit { db with deposits := db.deposits ++
                [⟨uid, txid0, iv.1, iv.2.value, conf, true⟩] } uid iv.2.value
                Reason.deposit (Ref.dep txid0 iv.1) 0 with
              | .ok p => p.2
              | .error _ => db) txid v = depositRowCount db txid v ∧
          ledgerDepositCount (if depositExists db txid0 iv.1 = true then db
            else match credit { db with deposits := db.deposits ++
                [⟨uid, txid0, iv.1, iv.2.value, conf, true⟩] } uid iv.2.value
                Reason.deposit (Ref.dep txid0 iv.1) 0 with
              | .ok p => p.2
              | .error _ => db) txid v = ledgerDepositCount db txid v := by
        by_cases hex : depositExists db txid0 iv.1 = true
        · simp [hex]
        have hex2 : depositExists db txid0 iv.1 = false := by simpa using hex
        simp only [hex2, Bool.false_eq_true, if_false]
        by_cases hamt : iv.2.value ≤ 0
        · simp [credit, hamt]
        simp only [credit, hamt, if_false]
        obtain ⟨L, hL, hLr⟩ := insertLedger_ledger_ext
          ({ db with deposits := db.deposits ++
            [⟨uid, txid0, iv.1, iv.2.value, conf, true⟩] } : DB)
          uid iv.2.value Reason.deposit (Ref.dep txid0 iv.1) 0
        constructor
        · simp only [depositRowCount]
          rw [insertLedger_deposits]
          simp only
          rw [depRowCountL_append, depRowCountL_single]
          simp [hk]
        · simp only [ledgerDepositCount]
          rw [hL]
          simp only
          rw [ledDepCountL_append]
          have hz : ledDepCountL L txid v = 0 := by
            unfold ledDepCountL
            rw [List.length_eq_zero, List.filter_eq_nil]
            intro l hl
            have := (hLr l hl).2
            simp [this, hrefne]
          rw [hz]
          omega
      exact ⟨fun _ => unchanged, fun hk2 => absurd hk2 hk, fun _ => unchanged⟩
  · -- output pays a different address: always a no-op
    have hb : (iv.2.scriptpubkey_address == some address) = false := by
      simpa using haddr
    simp only [processExplorerVout, hb, Bool.not_false, if_true]
    refine ⟨fun _ => ⟨by trivial, by trivial⟩, fun _ haddr2 _ _ => ?_,
      fun _ => ⟨by trivial, by trivial⟩⟩
    exact absurd (by simp [haddr2]) haddr

theorem processExplorerVout_pair0 (uid : Nat) (address txid0 : String)
    (conf : Int) (txid : String) (v : Nat) (db : DB) (iv : Nat × ExplorerVout)
    (h : pairZero db txid v) :
    pairZero (processExplorerVout uid address txid0 conf db iv) txid v ∨
    pairOne (processExplorerVout uid address txid0 conf db iv) txid v := by
  by_cases haddr : (iv.2.scriptpubkey_address == some address) = true
  · by_cases hk : txid0 = txid ∧ iv.1 = v
    · obtain ⟨hk1, hk2⟩ := hk
      subst hk1
      subst hk2
      by_cases hamt : iv.2.value ≤ 0
      · left
        have hex : depositExists db txid0 iv.1 = false :=
          (depositExists_false_iff db txid0 iv.1).mpr h.1
        simp only [processExplorerVout, haddr, Bool.not_true, Bool.false_eq_true,
          if_false, hex, credit, hamt, if_true]
        exact h
      · right
        exact (processExplorerVout_counts uid address txid0 conf db iv txid0 iv.1).2.1
          ⟨rfl, rfl⟩ (by simpa using haddr) (by omega) h
    · left
      have hc := (processExplorerVout_counts uid address txid0 conf db iv txid v).1 hk
      exact ⟨hc.1.trans h.1, hc.2.trans h.2⟩
  · left
    have hb : (iv.2.scriptpubkey_address == some address) = false := by
      simpa using haddr
    simp only [processExplorerVout, hb, Bool.not_false, if_true]
    exact h

theorem processExplorerVout_pair1 (uid : Nat) (address txid0 : String)
    (conf : Int) (txid : String) (v : Nat) (db : DB) (iv : Nat × ExplorerVout)
    (h : pairOne db txid v) :
    pairOne (processExplorerVout uid address txid0 conf db iv) txid v := by
  have hc := (processExplorerVout_counts uid address txid0 conf db iv txid v).2.2 h
  exact ⟨hc.1.trans h.1, hc.2.trans h.2⟩

theorem processExplorerTx_pair0 (minConf tip : Int) (uid : Nat) (address : String)
    (txid : String) (v : Nat) (db : DB) (tx : ExplorerTx)
    (h : pairZero db txid v) :
    pairZero (processExplorerTx minConf tip uid address db tx) txid v ∨
    pairOne (processExplorerTx minConf tip uid address db tx) txid v := by
  unfold processExplorerTx
  by_cases hcf : tx.confirmed = true
  · simp only [hcf, Bool.not_true, Bool.false_eq_true, if_false]
    by_cases hlow : explorerConf tip tx.block_height < minConf
    · simp only [hlow, if_true]
      exact Or.inl h
    · simp only [hlow, if_false]
      exact (foldl_pairOnce_preserve
        (processExplorerVout uid address tx.txid (explorerConf tip tx.block_height))
        txid v
        (processExplorerVout_pair0 uid address tx.txid _ txid v)
        (processExplorerVout_pair1 uid address tx.txid _ txid v)).1
        tx.vout.enum db (Or.inl h)
  · have hcf2 : tx.confirmed = false := by simpa using hcf
    simp only [hcf2, Bool.not_false, if_true]
    exact Or.inl h

theorem processExplorerTx_pair1 (minConf tip : Int) (uid : Nat) (address : String)
    (txid : String) (v : Nat) (db : DB) (tx : ExplorerTx)
    (h : pairOne db txid v) :
    pairOne (processExplorerTx minConf tip uid address db tx) txid v := by
  unfold processExplorerTx
  by_cases hcf : tx.confirmed = true
  · simp only [hcf, Bool.not_true, Bool.false_eq_true, if_false]
    by_cases hlow : explorerConf tip tx.block_height < minConf
    · simp only [hlow, if_true]
      exact h
    · simp only [hlow, if_false]
      exact (foldl_pairOnce_preserve
        (processExplorerVout uid address tx.txid (explorerConf tip tx.block_height))
        txid v
        (processExplorerVout_pair0 uid address tx.txid _ txid v)
        (processExplorerVout_pair1 uid address tx.txid _ txid v)).2
        tx.vout.enum db h
  · have hcf2 : tx.confirmed = false := by simpa using hcf
    simp only [hcf2, Bool.not_false, if_true]
    exact h

/-- The per-address step of the explorer scan. -/
def explorerAddrStep (minConf tip : Int) (gat : String → List ExplorerTx)
    (dbA : DB) (ua : Nat × String) : DB :=
  (gat ua.2).foldl (processExplorerTx minConf tip ua.1 ua.2) dbA

theorem scanOnceExplorer_eq (db : DB) (tip : Int)
    (gat : String → List ExplorerTx) (minConf : Int) :
    scanOnceExplorer db tip gat minConf =
      db.walletAddresses.foldl (explorerAddrStep minConf tip gat) db := rfl

theorem explorerAddrStep_pair0 (minConf tip : Int) (gat : String → List ExplorerTx)
    (txid : String) (v : Nat) (db : DB) (ua : Nat × String)
    (h : pairZero db txid v) :
    pairZero (explorerAddrStep minConf tip gat db ua) txid v ∨
    pairOne (explorerAddrStep minConf tip gat db ua) txid v :=
  (foldl_pairOnce_preserve (processExplorerTx minConf tip ua.1 ua.2) txid v
    (processExplorerTx_pair0 minConf tip ua.1 ua.2 txid v)
    (processExplorerTx_pair1 minConf tip ua.1 ua.2 txid v)).1 (gat ua.2) db
    (Or.inl h)

theorem explorerAddrStep_pair1 (minConf tip : Int) (gat : String → List ExplorerTx)
    (txid : String) (v : Nat) (db : DB) (ua : Nat × String)
    (h : pairOne db txid v) :
    pairOne (explorerAddrStep minConf tip gat db ua) txid v :=
  (foldl_pairOnce_preserve (processExplorerTx minConf tip ua.1 ua.2) txid v
    (processExplorerTx_pair0 minConf tip ua.1 ua.2 txid v)
    (processExplorerTx_pair1 minConf tip ua.1 ua.2 txid v)).2 (gat ua.2) db h

theorem processExplorerTx_counts_const (minConf tip : Int) (uid : Nat)
    (address : String) (db : DB) (tx : ExplorerTx) (txid : String) (v : Nat)
    (hcase : tx.txid ≠ txid ∨ tx.confirmed = false ∨
      explorerConf tip tx.block_height < minConf) :
    depositRowCount (processExplorerTx minConf tip uid address db tx) txid v =
      depositRowCount db txid v ∧
    ledgerDepositCount (processExplorerTx minConf tip uid address db tx) txid v =
      ledgerDepositCount db txid v := by
  unfold processExplorerTx
  by_cases hcf : tx.confirmed = true
  · simp only [hcf, Bool.not_true, Bool.false_eq_true, if_false]
    by_cases hlow : explorerConf tip tx.block_height < minConf
    · simp only [hlow, if_true]
      exact ⟨by trivial, by trivial⟩
    · simp only [hlow, if_false]
      have hne : tx.txid ≠ txid := by
        rcases hcase with h | h | h
        · exact h
        · rw [h] at hcf; exact absurd hcf (by simp)
        · exact absurd h hlow
      exact foldl_counts_const
        (processExplorerVout uid address tx.txid (explorerConf tip tx.block_height))
        txid v tx.vout.enum
        (fun dbx x _ =>
          (processExplorerVout_counts uid address tx.txid _ dbx x txid v).1
            (fun hk => hne hk.1)) db
  · have hcf2 : tx.confirmed = false := by simpa using hcf
    simp only [hcf2, Bool.not_false, if_true]
    exact ⟨by trivial, by trivial⟩

/-- C5: deposit gating and exactly-once crediting.
Part 1 (node source): an output whose every observation is below the
confirmation threshold is never credited.
Part 2 (explorer source): likewise when every observation of the transaction
is unconfirmed or below the threshold.
Part 3 (node source): a qualifying observation of a fresh output yields
exactly one Deposit row and one ledger posting, even if the cycle observes
it repeatedly.
Part 4 (explorer source): likewise.
Part 5: once recorded exactly once, any further scan cycle of either source
adds no second Deposit row and no second ledger posting. -/
theorem c5_deposit_gating_exactly_once :
    (∀ (db : DB) (txs : List TxItem) (gts : String → Bool) (minConf : Int)
        (txid : String) (v : Nat),
      (∀ t ∈ txs, t.txid = txid → t.vout = v → t.confirmations < minConf) →
      depositRowCount db txid v = 0 → ledgerDepositCount db txid v = 0 →
      depositRowCount (scanOnceRpc db txs gts minConf) txid v = 0 ∧
      ledgerDepositCount (scanOnceRpc db txs gts minConf) txid v = 0) ∧
    (∀ (db : DB) (tip : Int) (gat : String → List ExplorerTx) (minConf : Int)
        (txid : String) (v : Nat),
      (∀ ua ∈ db.walletAddresses, ∀ tx ∈ gat ua.2, tx.txid = txid →
        tx.confirmed = false ∨ explorerConf tip tx.block_height < minConf) →
      depositRowCount db txid v = 0 → ledgerDepositCount db txid v = 0 →
      depositRowCount (scanOnceExplorer db tip gat minConf) txid v = 0 ∧
      ledgerDepositCount (scanOnceExplorer db tip gat minConf) txid v = 0) ∧
    (∀ (db : DB) (txs : List TxItem) (gts : String → Bool) (minConf : Int)
        (t : TxItem),
      t ∈ txs → t.category = "receive" → minConf ≤ t.confirmations →
      isNumericLabel t.label = true → gts t.txid = false → 0 < t.amountLites →
      pairZero db t.txid t.vout →
      pairOne (scanOnceRpc db txs gts minConf) t.txid t.vout) ∧
    (∀ (db : DB) (tip : Int) (gat : String → List ExplorerTx) (minConf : Int)
        (ua : Nat × String) (tx : ExplorerTx) (iv : Nat × ExplorerVout),
      ua ∈ db.walletAddresses → tx ∈ gat ua.2 → iv ∈ tx.vout.enum →
      tx.confirmed = true → ¬ explorerConf tip tx.block_height < minConf →
      iv.2.scriptpubkey_address = some ua.2 → 0 < iv.2.value →
      pairZero db tx.txid iv.1 →
      pairOne (scanOnceExplorer db tip gat minConf) tx.txid iv.1) ∧
    (∀ (db : DB) (txid : String) (v : Nat), pairOne db txid v →
      (∀ txs gts minConf, pairOne (scanOnceRpc db txs gts minConf) txid v) ∧
      (∀ tip gat minConf, pairOne (scanOnceExplorer db tip gat minConf) txid v)) := by
  refine ⟨?_, ?_, ?_, ?_, ?_⟩
  · -- Part 1: RPC gating
    intro db txs gts minConf txid v hobs hd0 hl0
    unfold scanOnceRpc
    refine foldl_counts_const (processRpcItem gts) txid v _ ?_ db |>.imp
      (fun h => h.trans hd0) (fun h => h.trans hl0)
    intro dbx x hx
    apply (processRpcItem_counts gts dbx x txid v).1
    intro hk
    have hmem := List.mem_filter.mp hx
    have hpred := hmem.2
    simp only [Bool.and_eq_true, decide_eq_true_eq] at hpred
    exact absurd (hobs x hmem.1 hk.1 hk.2) (by omega)
  · -- Part 2: explorer gating
    intro db tip gat minConf txid v hobs hd0 hl0
    rw [scanOnceExplorer_eq]
    refine foldl_counts_const (explorerAddrStep minConf tip gat) txid v _ ?_ db
      |>.imp (fun h => h.trans hd0) (fun h => h.trans hl0)
    intro dbx ua hua
    unfold explorerAddrStep
    apply foldl_counts_const
    intro dby tx htx
    apply processExplorerTx_counts_const
    by_cases htxid : tx.txid = txid
    · exact Or.inr (hobs ua hua tx htx htxid)
    · exact Or.inl htxid
  · -- Part 3: RPC exactly once
    intro db txs gts minConf t ht hcat hconf hlab hsend hpos h0
    unfold scanOnceRpc
    refine foldl_pair_progress (processRpcItem gts) t.txid t.vout
      (processRpcItem_pair0 gts t.txid t.vout)
      (processRpcItem_pair1 gts t.txid t.vout) _ t ?_ ?_ db (Or.inl h0)
    · apply List.mem_filter.mpr
      refine ⟨ht, ?_⟩
      simp [hcat, hconf, hlab]
    · intro dbx hx
      exact (processRpcItem_counts gts dbx t t.txid t.vout).2.1 ⟨rfl, rfl⟩
        hsend hpos hx
  · -- Part 4: explorer exactly once
    intro db tip gat minConf ua tx iv hua htx hiv hcf hhigh haddr hpos h0
    rw [scanOnceExplorer_eq]
    refine foldl_pair_progress (explorerAddrStep minConf tip gat) tx.txid iv.1
      (explorerAddrStep_pair0 minConf tip gat tx.txid iv.1)
      (explorerAddrStep_pair1 minConf tip gat tx.txid iv.1)
      _ ua hua ?_ db (Or.inl h0)
    intro dbx hx
    unfold explorerAddrStep
    refine foldl_pair_progress (processExplorerTx minConf tip ua.1 ua.2)
      tx.txid iv.1
      (processExplorerTx_pair0 minConf tip ua.1 ua.2 tx.txid iv.1)
      (processExplorerTx_pair1 minConf tip ua.1 ua.2 tx.txid iv.1)
      _ tx htx ?_ dbx (Or.inl hx)
    intro dby hy
    unfold processExplorerTx
    simp only [hcf, Bool.not_true, Bool.false_eq_true, if_false, hhigh]
    refine foldl_pair_progress
      (processExplorerVout ua.1 ua.2 tx.txid (explorerConf tip tx.block_height))
      tx.txid iv.1
      (processExplorerVout_pair0 ua.1 ua.2 tx.txid _ tx.txid iv.1)
      (processExplorerVout_pair1 ua.1 ua.2 tx.txid _ tx.txid iv.1)
      _ iv hiv ?_ dby (Or.inl hy)
    intro dbz hz
    exact (processExplorerVout_counts ua.1 ua.2 tx.txid _ dbz iv tx.txid iv.1).2.1
      ⟨rfl, rfl⟩ haddr hpos hz
  · -- Part 5: stability under any later cycle
    intro db txid v h1
    constructor
    · intro txs gts minConf
      unfold scanOnceRpc
      exact (foldl_pairOnce_preserve (processRpcItem gts) txid v
        (processRpcItem_pair0 gts txid v) (processRpcItem_pair1 gts txid v)).2
        _ db h1
    · intro tip gat minConf
      rw [scanOnceExplorer_eq]
      exact (foldl_pairOnce_preserve (explorerAddrStep minConf tip gat) txid v
        (explorerAddrStep_pair0 minConf tip gat txid v)
        (explorerAddrStep_pair1 minConf tip gat txid v)).2 _ db h1

/-- C5 witness: a fresh 6-confirmation output observed twice in one RPC
cycle is credited exactly once (one Deposit row, one ledger posting). -/
theorem c5_witness :
    pairOne (scanOnceRpc emptyDB
      [⟨"addr", "receive", 50, some "7", 6, "tx1", 0⟩,
       ⟨"addr", "receive", 50, some "7", 6, "tx1", 0⟩]
      (fun _ => false) 6) "tx1" 0 :=
  c5_deposit_gating_exactly_once.2.2.1 emptyDB
    [⟨"addr", "receive", 50, some "7", 6, "tx1", 0⟩,
     ⟨"addr", "receive", 50, some "7", 6, "tx1", 0⟩]
    (fun _ => false) 6 ⟨"addr", "receive", 50, some "7", 6, "tx1", 0⟩
    (by decide) rfl (by decide) (by decide) rfl (by decide) ⟨rfl, rfl⟩

-- ---------------------------------------------------------------------------
-- C7: wallet-internal change exclusion
-- ---------------------------------------------------------------------------

/-- C7, amended (node RPC source): if `gettransaction` reports a send leg
for a transaction — the wallet-internal-change marker — then the RPC scan
never credits any output of that transaction: a fresh (txid, vout) stays
absent from both the Deposit table and the ledger. -/
theorem c7_rpc_change_exclusion (db : DB) (txs : List TxItem)
    (gts : String → Bool) (minConf : Int) (txid : String) (v : Nat)
    (hsend : gts txid = true)
    (hd0 : depositRowCount db txid v = 0) (hl0 : ledgerDepositCount db txid v = 0) :
    depositRowCount (scanOnceRpc db txs gts minConf) txid v = 0 ∧
    ledgerDepositCount (scanOnceRpc db txs gts minConf) txid v = 0 := by
  unfold scanOnceRpc
  refine foldl_counts_const (processRpcItem gts) txid v _ ?_ db |>.imp
    (fun h => h.trans hd0) (fun h => h.trans hl0)
  intro dbx x _
  by_cases hk : x.txid = txid ∧ x.vout = v
  · have : gts x.txid = true := by rw [hk.1]; exact hsend
    unfold processRpcItem
    simp [this]
  · exact (processRpcItem_counts gts dbx x txid v).1 hk

/-- The node wallet reports a send leg for transaction t1 (it is a
withdrawal whose receive leg pays a watched address back). -/
def c7_gts : String → Bool := fun s => s == "t1"

/-- One user whose watched deposit address is "A". -/
def c7_db0 : DB :=
  { emptyDB with
     users := [⟨1, 10, 0⟩], nextUserId := 2, walletAddresses := [(1, "A")] }

/-- The explorer view of t1: a confirmed transaction paying 50 lites to the
watched address "A" (the explorer carries no send-leg information). -/
def c7_gat : String → List ExplorerTx :=
  fun a => if a == "A" then [⟨"t1", [⟨some "A", 50⟩], true, 95⟩] else []

/-- C7, counterexample: transaction t1 has a send leg belonging to the
wallet (per the node, `c7_gts`) and a receive leg paying the watched
address "A".  The RPC scan excludes it, but the explorer scan — which has
no change detection at all — credits the receive leg as a deposit at 6
confirmations, refuting "regardless of which configured source". -/
theorem c7_counterexample :
    c7_gts "t1" = true ∧
    depositRowCount (scanOnceExplorer c7_db0 100 c7_gat 6) "t1" 0 = 1 ∧
    ledgerDepositCount (scanOnceExplorer c7_db0 100 c7_gat 6) "t1" 0 = 1 ∧
    scanOnceRpc c7_db0 [⟨"A", "receive", 50, some "10", 6, "t1", 0⟩] c7_gts 6 =
      c7_db0 := by
  refine ⟨by decide, by decide, by decide, by decide⟩

/-- C7 witness: the amended RPC exclusion applied to the same concrete
transaction. -/
theorem c7_rpc_change_exclusion_witness :
    depositRowCount (scanOnceRpc c7_db0
      [⟨"A", "receive", 50, some "10", 6, "t1", 0⟩] c7_gts 6) "t1" 0 = 0 ∧
    ledgerDepositCount (scanOnceRpc c7_db0
      [⟨"A", "receive", 50, some "10", 6, "t1", 0⟩] c7_gts 6) "t1" 0 = 0 :=
  c7_rpc_change_exclusion c7_db0 [⟨"A", "receive", 50, some "10", 6, "t1", 0⟩]
    c7_gts 6 "t1" 0 (by decide) (by decide) (by decide)

-- ---------------------------------------------------------------------------
-- C8: the withdrawal recorder (src/index.ts /withdraw background task)
-- ---------------------------------------------------------------------------

/-- Outcome of `rpcTry`: `{ ok: true, value }` or `{ ok: false, err }`. -/
inductive RpcResult (α : Type)
  | ok (v : α)
  | err (msg : String)
  deriving DecidableEq

/-- What the background task DMs back to the caller. The send-failure
message classification (wallet busy / invalid address / insufficient node
funds / generic) only rewords `msg` and is not modelled further. -/
inductive WithdrawReply
  | invalidAddress
  | sendFailed (msg : String)
  | sent (txid : String)
  deriving DecidableEq

/-- `INSERT INTO withdrawals … ON CONFLICT (txid) DO NOTHING`. -/
def insertWithdrawalIgnore (db : DB) (row : WithdrawalRow) : DB :=
  if db.withdrawals.any (fun w => w.txid == row.txid) then db
  else { db with withdrawals := db.withdrawals ++ [row] }

/-- The /withdraw background task (src/index.ts lines 903–962): validate the
address (an explicit `isvalid === false` aborts), send on chain; if the send
failed, surface the error and write nothing; on success insert the
Withdrawal row keyed by the chain txid (ignore-on-conflict) and debit the
ledger with reason `withdrawal` and ref the txid (each insert's own failure
is caught and logged, as in the code). -/
def withdrawBg (db : DB) (senderId : Nat) (toAddress : String) (amount : Int)
    (nowMs : Int) (validateRes : RpcResult Bool) (sendRes : RpcResult String) :
    WithdrawReply × DB :=
  match validateRes with
  | .ok false => (.invalidAddress, db)
  | _ =>
    match sendRes with
    | .err m => (.sendFailed m, db)
    | .ok txid =>
        let db1 := insertWithdrawalIgnore db ⟨senderId, toAddress, amount, txid, "sent"⟩
        let db2 := match debit db1 senderId amount .withdrawal (.wtx txid) nowMs with
          | .ok p => p.2
          | .error _ => db1
        (.sent txid, db2)

theorem insertLedger_withdrawals (db : DB) (u : Nat) (δ : Int) (r : Reason)
    (rf : Ref) (t : Int) :
    (insertLedger db u δ r rf t).2.withdrawals = db.withdrawals := by
  unfold insertLedger
  by_cases hc : db.ledger.any (fun l => l.reason == r && l.ref == rf) <;> simp [hc]

/-- C8: if the chain send fails (or the address is invalid), no Withdrawal
row and no ledger posting is written — the store, and hence the caller's
balance, is exactly as before — and an error reply is surfaced; on a
successful send of a fresh txid, a Withdrawal row keyed by the txid is
recorded and a ledger debit with reason `withdrawal` and reference the txid
follows. -/
theorem c8_withdraw (db : DB) (senderId : Nat) (toAddress : String)
    (amount nowMs : Int) (validateRes : RpcResult Bool)
    (sendRes : RpcResult String) :
    (validateRes = .ok false →
      withdrawBg db senderId toAddress amount nowMs validateRes sendRes =
        (.invalidAddress, db)) ∧
    (∀ m, sendRes = .err m → validateRes ≠ .ok false →
      withdrawBg db senderId toAddress amount nowMs validateRes sendRes =
        (.sendFailed m, db)) ∧
    (∀ txid, sendRes = .ok txid → validateRes ≠ .ok false → 0 < amount →
      (∀ w ∈ db.withdrawals, w.txid ≠ txid) →
      (db.ledger.any (fun l =>
        l.reason == Reason.withdrawal && l.ref == Ref.wtx txid)) = false →
      (withdrawBg db senderId toAddress amount nowMs validateRes sendRes).1 =
        .sent txid ∧
      (⟨senderId, toAddress, amount, txid, "sent"⟩ : WithdrawalRow) ∈
        (withdrawBg db senderId toAddress amount nowMs validateRes sendRes).2.withdrawals ∧
      ∃ l ∈ (withdrawBg db senderId toAddress amount nowMs validateRes sendRes).2.ledger,
        l.user_id = senderId ∧ l.delta_lites = -amount ∧
        l.reason = Reason.withdrawal ∧ l.ref = Ref.wtx txid) := by
  refine ⟨?_, ?_, ?_⟩
  · intro hv
    subst hv
    rfl
  · intro m hs hv
    subst hs
    cases validateRes with
    | ok b =>
        cases b with
        | false => exact absurd rfl hv
        | true => rfl
    | err e => rfl
  · intro txid hs hv hpos hwfresh hlfresh
    subst hs
    have hnoc : db.withdrawals.any (fun w => w.txid == txid) = false := by
      rw [List.any_eq_false]
      intro w hw
      simp [hwfresh w hw]
    have hbody :
        (withdrawBg db senderId toAddress amount nowMs validateRes (.ok txid)).2 =
        (let db1 := insertWithdrawalIgnore db
          ⟨senderId, toAddress, amount, txid, "sent"⟩
        match debit db1 senderId amount .withdrawal (.wtx txid) nowMs with
          | .ok p => p.2
          | .error _ => db1) ∧
        (withdrawBg db senderId toAddress amount nowMs validateRes (.ok txid)).1 =
          .sent txid := by
      cases validateRes with
      | ok b =>
          cases b with
          | false => exact absurd rfl hv
          | true => exact ⟨rfl, rfl⟩
      | err e => exact ⟨rfl, rfl⟩
    obtain ⟨hb2, hb1⟩ := hbody
    have hdb1 : insertWithdrawalIgnore db ⟨senderId, toAddress, amount, txid, "sent"⟩ =
        { db with withdrawals := db.withdrawals ++
          [⟨senderId, toAddress, amount, txid, "sent"⟩] } := by
      unfold insertWithdrawalIgnore
      simp [hnoc]
    have hnl : ¬ amount ≤ 0 := by omega
    refine ⟨hb1, ?_, ?_⟩
    · rw [hb2]
      simp only [hdb1, debit, hnl, if_false]
      rw [insertLedger_withdrawals]
      simp
    · rw [hb2]
      simp only [hdb1, debit, hnl, if_false]
      have hany : ({ db with withdrawals := db.withdrawals ++
          [⟨senderId, toAddress, amount, txid, "sent"⟩] } : DB).ledger.any
          (fun l => l.reason == Reason.withdrawal && l.ref == Ref.wtx txid) = false :=
        hlfresh
      simp only [insertLedger, hany, Bool.false_eq_true, if_false]
      refine ⟨⟨db.nextLedgerId, senderId, -amount, Reason.withdrawal,
        Ref.wtx txid, nowMs⟩, ?_, rfl, rfl, rfl, rfl⟩
      simp

/-- C8 witness: a successful send of txid "w1" for 40 lites records the
Withdrawal row and the matching ledger debit. -/
theorem c8_withdraw_witness :
    (withdrawBg c1_db0 1 "dest" 40 3 (.ok true) (.ok "w1")).1 = .sent "w1" ∧
    (⟨1, "dest", 40, "w1", "sent"⟩ : WithdrawalRow) ∈
      (withdrawBg c1_db0 1 "dest" 40 3 (.ok true) (.ok "w1")).2.withdrawals ∧
    ∃ l ∈ (withdrawBg c1_db0 1 "dest" 40 3 (.ok true) (.ok "w1")).2.ledger,
      l.user_id = 1 ∧ l.delta_lites = -40 ∧
      l.reason = Reason.withdrawal ∧ l.ref = Ref.wtx "w1" :=
  (c8_withdraw c1_db0 1 "dest" 40 3 (.ok true) (.ok "w1")).2.2 "w1" rfl
    (by decide) (by decide) (by decide) (by decide)

-- ---------------------------------------------------------------------------
-- C6: tip pairing (src/bootstrap.ts tips_try_pair and the pairing sweep)
-- ---------------------------------------------------------------------------

/-- Rows of `tips` referencing a ledger id as the OUT side. -/
def outCount (db : DB) (lid : Nat) : Nat :=
  (db.tips.filter (fun t => t.ledger_out_id == some lid)).length

/-- Rows of `tips` referencing a ledger id as the IN side. -/
def inCount (db : DB) (lid : Nat) : Nat :=
  (db.tips.filter (fun t => t.ledger_in_id == some lid)).length

/-- Rows of `tips` referencing a ledger id on either side — "appears in a
TipAudit row". -/
def pairedCount (db : DB) (lid : Nat) : Nat :=
  (db.tips.filter (fun t =>
    t.ledger_out_id == some lid || t.ledger_in_id == some lid)).length

/-- `INSERT INTO tips … ON CONFLICT DO NOTHING`.  Modelled from the spec:
the tips table's DDL is not in the repository; per the code comment the
insert "relies on a UNIQUE in tips", and the spec's TipAudit row is
identified by the two ledger entries it pairs, so the conflict target is
the pair (ledger_out_id, ledger_in_id). -/
def tipsInsertIgnore (db : DB) (row : TipRow) : DB :=
  if db.tips.any (fun t =>
      t.ledger_out_id == row.ledger_out_id && t.ledger_in_id == row.ledger_in_id) then db
  else { db with tips := db.tips ++ [row] }

/-- `ORDER BY l.id ASC LIMIT 1` over a computed candidate list. -/
def minByIdSel : List LedgerRow → Option LedgerRow
  | [] => none
  | l :: ls =>
      match minByIdSel ls with
      | none => some l
      | some m => if l.id ≤ m.id then some l else some m

/-- Candidate inbound counterparts for an outbound entry `r`
(tips_try_pair, first SELECT): inbound tip-class reason, different user,
equal absolute amount, created within ±5 minutes, and neither entry already
paired (`NOT EXISTS` over tips). -/
def outCands (db : DB) (r : LedgerRow) : List LedgerRow :=
  db.ledger.filter (fun l =>
    l.reason.isTipIn && !(l.user_id == r.user_id) &&
    (|l.delta_lites| == |r.delta_lites|) &&
    decide (r.created_at - 300000 ≤ l.created_at) &&
    decide (l.created_at ≤ r.created_at + 300000) &&
    !(db.tips.any (fun t =>
      t.ledger_out_id == some r.id || t.ledger_in_id == some l.id)))

/-- Candidate outbound counterparts for an inbound entry `r`
(tips_try_pair, second SELECT). -/
def inCands (db : DB) (r : LedgerRow) : List LedgerRow :=
  db.ledger.filter (fun l =>
    l.reason.isTipOut && !(l.user_id == r.user_id) &&
    (|l.delta_lites| == |r.delta_lites|) &&
    decide (r.created_at - 300000 ≤ l.created_at) &&
    decide (l.created_at ≤ r.created_at + 300000) &&
    !(db.tips.any (fun t =>
      t.ledger_in_id == some r.id || t.ledger_out_id == some l.id)))

/-- `public.tips_try_pair(p_ledger_id)` (src/bootstrap.ts): look the entry
up, return unless it is tip-class, pick the earliest-id unpaired counterpart
in the ±5-minute window, and insert the audit row conflict-ignored. -/
def tips_try_pair (db : DB) (pLedgerId : Nat) : DB :=
  match db.ledger.find? (fun l => l.id == pLedgerId) with
  | none => db
  | some r =>
      if r.reason.isTipClass = false then db
      else if r.reason.isTipOut = true then
        match minByIdSel (outCands db r) with
        | none => db
        | some l => tipsInsertIgnore db
            ⟨r.user_id, l.user_id, |r.delta_lites|,
             min r.created_at l.created_at, some r.id, some l.id⟩
      else
        match minByIdSel (inCands db r) with
        | none => db
        | some l => tipsInsertIgnore db
            ⟨l.user_id, r.user_id, |r.delta_lites|,
             min r.created_at l.created_at, some l.id, some r.id⟩

/-- The bootstrap pairing sweep (src/bootstrap.ts step 5): one
`INSERT … SELECT` joining every outbound entry to every inbound entry with
equal absolute amount, different users and timestamps within 10 minutes,
whose `NOT EXISTS` unpaired-check reads the tips table in the statement's
snapshot — i.e. the PRE-insert state, so rows produced by the same
statement do not block each other.  (The statement carries no ON CONFLICT,
and the join can emit several rows per entry; distinct ledger_in_ids mean
no two of them collide on the modelled unique key.) -/
def pairSweep (db : DB) : DB :=
  let outs := db.ledger.filter (fun l => l.reason.isTipOut)
  let ins := db.ledger.filter (fun l => l.reason.isTipIn)
  let pairs := outs.flatMap (fun o =>
    (ins.filter (fun i =>
      (|o.delta_lites| == |i.delta_lites|) && !(o.user_id == i.user_id) &&
      decide (|i.created_at - o.created_at| ≤ 600000) &&
      !(db.tips.any (fun t =>
        t.ledger_out_id == some o.id || t.ledger_in_id == some i.id)))).map
      (fun i => (⟨o.user_id, i.user_id, |o.delta_lites|,
        min o.created_at i.created_at, some o.id, some i.id⟩ : TipRow)))
  { db with tips := db.tips ++ pairs }

/-- One tip_out of user 1 and two matching tip_ins (users 2 and 3), all
within the window, nothing paired yet. -/
def c6_db0 : DB :=
  { emptyDB with
     users := [⟨1, 10, 0⟩, ⟨2, 20, 0⟩, ⟨3, 30, 0⟩],
     nextUserId := 4,
     ledger := [⟨1, 1, -50, .tip_out, .tip 0 1 2 50, 0⟩,
                ⟨2, 2, 50, .tip_in, .tip 0 1 2 50, 60000⟩,
                ⟨3, 3, 50, .tip_in, .tip 5 1 3 50, 120000⟩],
     nextLedgerId := 4 }

/-- "Each ledger entry appears in at most one tips row on the OUT side". -/
def TipsSideOnce (db : DB) : Prop :=
  ∀ lid, outCount db lid ≤ 1 ∧ inCount db lid ≤ 1

/-- Every tips row's side references point at ledger rows of the matching
tip class (outbound reason on the OUT side, inbound on the IN side). -/
def TipsTyped (db : DB) : Prop :=
  ∀ t ∈ db.tips,
    (∀ oid, t.ledger_out_id = some oid →
       ∃ l ∈ db.ledger, l.id = oid ∧ l.reason.isTipOut = true) ∧
    (∀ iid, t.ledger_in_id = some iid →
       ∃ l ∈ db.ledger, l.id = iid ∧ l.reason.isTipIn = true)

theorem not_tipOut_and_tipIn (re : Reason) :
    ¬(re.isTipOut = true ∧ re.isTipIn = true) := by
  cases re <;> decide

theorem minByIdSel_eq_none (ls : List LedgerRow) (h : minByIdSel ls = none) :
    ls = [] := by
  cases ls with
  | nil => rfl
  | cons a t =>
      simp only [minByIdSel] at h
      cases ht : minByIdSel t with
      | none => rw [ht] at h; exact absurd h (by simp)
      | some m =>
          rw [ht] at h
          dsimp only at h
          by_cases hc : a.id ≤ m.id
          · rw [if_pos hc] at h; exact absurd h (by simp)
          · rw [if_neg hc] at h; exact absurd h (by simp)

/-- `ORDER BY l.id ASC LIMIT 1`: the selected row is a candidate and has
the least id among the candidates. -/
theorem minByIdSel_spec (ls : List LedgerRow) (m : LedgerRow)
    (h : minByIdSel ls = some m) : m ∈ ls ∧ ∀ l ∈ ls, m.id ≤ l.id := by
  induction ls generalizing m with
  | nil => simp [minByIdSel] at h
  | cons a t ih =>
      simp only [minByIdSel] at h
      cases ht : minByIdSel t with
      | none =>
          rw [ht] at h
          injection h with h
          subst h
          have ht0 : t = [] := minByIdSel_eq_none t ht
          subst ht0
          refine ⟨List.mem_cons_self a [], ?_⟩
          intro l hl
          simp only [List.mem_singleton] at hl
          subst hl
          exact le_refl _
      | some mt =>
          rw [ht] at h
          dsimp only at h
          obtain ⟨hmem, hmin⟩ := ih mt ht
          by_cases hc : a.id ≤ mt.id
          · rw [if_pos hc] at h
            injection h with h
            subst h
            refine ⟨List.mem_cons_self a t, ?_⟩
            intro l hl
            rcases List.mem_cons.mp hl with rfl | hlt
            · exact le_refl _
            · exact le_trans hc (hmin l hlt)
          · rw [if_neg hc] at h
            injection h with h
            subst h
            refine ⟨List.mem_cons_of_mem a hmem, ?_⟩
            intro l hl
            rcases List.mem_cons.mp hl with rfl | hlt
            · exact le_of_not_le hc
            · exact hmin l hlt

theorem outCands_mem (db : DB) (r l : LedgerRow) (h : l ∈ outCands db r) :
    l ∈ db.ledger ∧ l.reason.isTipIn = true ∧
    db.tips.any (fun t =>
      t.ledger_out_id == some r.id || t.ledger_in_id == some l.id) = false := by
  unfold outCands at h
  have hp := List.of_mem_filter h
  simp only [Bool.and_eq_true, Bool.not_eq_true'] at hp
  exact ⟨List.mem_of_mem_filter h, hp.1.1.1.1.1, hp.2⟩

theorem inCands_mem (db : DB) (r l : LedgerRow) (h : l ∈ inCands db r) :
    l ∈ db.ledger ∧ l.reason.isTipOut = true ∧
    db.tips.any (fun t =>
      t.ledger_in_id == some r.id || t.ledger_out_id == some l.id) = false := by
  unfold inCands at h
  have hp := List.of_mem_filter h
  simp only [Bool.and_eq_true, Bool.not_eq_true'] at hp
  exact ⟨List.mem_of_mem_filter h, hp.1.1.1.1.1, hp.2⟩

theorem filters_nil_of_any_or_false (tips : List TipRow) (p q : TipRow → Bool)
    (h : tips.any (fun t => p t || q t) = false) :
    tips.filter p = [] ∧ tips.filter q = [] := by
  have h' : ∀ t ∈ tips, ¬((p t || q t) = true) := by
    rw [List.any_eq_false] at h
    exact h
  constructor <;> rw [List.filter_eq_nil_iff]
  · intro t ht hpt
    exact h' t ht (by simp [hpt])
  · intro t ht hqt
    exact h' t ht (by simp [hqt])

theorem append_sideonce (db : DB) (row : TipRow) (oid iid : Nat)
    (hro : row.ledger_out_id = some oid) (hri : row.ledger_in_id = some iid)
    (hso : TipsSideOnce db)
    (hzo : db.tips.filter (fun t => t.ledger_out_id == some oid) = [])
    (hzi : db.tips.filter (fun t => t.ledger_in_id == some iid) = []) :
    TipsSideOnce { db with tips := db.tips ++ [row] } := by
  intro lid0
  have hA : (db.tips.filter (fun t => t.ledger_out_id == some lid0)).length ≤ 1 :=
    (hso lid0).1
  have hB : (db.tips.filter (fun t => t.ledger_in_id == some lid0)).length ≤ 1 :=
    (hso lid0).2
  constructor
  · show ((db.tips ++ [row]).filter (fun t => t.ledger_out_id == some lid0)).length ≤ 1
    rw [List.filter_append, List.length_append]
    by_cases h : oid = lid0
    · subst h
      rw [hzo]
      simp only [List.length_nil, Nat.zero_add]
      have := List.length_filter_le (fun t => t.ledger_out_id == some oid) [row]
      simpa using this
    · have h2 : [row].filter (fun t => t.ledger_out_id == some lid0) = [] := by
        rw [List.filter_eq_nil_iff]
        intro t ht
        simp only [List.mem_singleton] at ht
        subst ht
        simp [hro, h]
      rw [h2]
      simpa using hA
  · show ((db.tips ++ [row]).filter (fun t => t.ledger_in_id == some lid0)).length ≤ 1
    rw [List.filter_append, List.length_append]
    by_cases h : iid = lid0
    · subst h
      rw [hzi]
      simp only [List.length_nil, Nat.zero_add]
      have := List.length_filter_le (fun t => t.ledger_in_id == some iid) [row]
      simpa using this
    · have h2 : [row].filter (fun t => t.ledger_in_id == some lid0) = [] := by
        rw [List.filter_eq_nil_iff]
        intro t ht
        simp only [List.mem_singleton] at ht
        subst ht
        simp [hri, h]
      rw [h2]
      simpa using hB

theorem append_typed (db : DB) (row : TipRow) (ro ri : LedgerRow)
    (hrom : ro ∈ db.ledger) (hrim : ri ∈ db.ledger)
    (hout : row.ledger_out_id = some ro.id) (hin : row.ledger_in_id = some ri.id)
    (hrt : ro.reason.isTipOut = true) (hit : ri.reason.isTipIn = true)
    (hty : TipsTyped db) :
    TipsTyped { db with tips := db.tips ++ [row] } := by
  intro t ht
  have ht' : t ∈ db.tips ∨ t = row := by
    simpa using (List.mem_append.mp ht)
  cases ht' with
  | inl h => exact hty t h
  | inr h =>
      subst h
      constructor
      · intro oid hoid
        rw [hout] at hoid
        injection hoid with hoid
        exact ⟨ro, hrom, hoid, hrt⟩
      · intro iid hiid
        rw [hin] at hiid
        injection hiid with hiid
        exact ⟨ri, hrim, hiid, hit⟩

/-- With sides at-most-once, well-typed sides and distinct ledger ids, no
entry appears in more than one tips row at all: its id cannot occur on
both sides, since one ledger row cannot be both tip-out and tip-in. -/
theorem pairedCount_le_one (db : DB) (hso : TipsSideOnce db) (hty : TipsTyped db)
    (hnd : (db.ledger.map LedgerRow.id).Nodup) (lid : Nat) :
    pairedCount db lid ≤ 1 := by
  by_cases ho : db.tips.filter (fun t => t.ledger_out_id == some lid) = []
  · have hcong : db.tips.filter (fun t =>
        t.ledger_out_id == some lid || t.ledger_in_id == some lid) =
        db.tips.filter (fun t => t.ledger_in_id == some lid) := by
      apply List.filter_congr
      intro t ht
      have hn := List.filter_eq_nil_iff.mp ho t ht
      simp only [Bool.not_eq_true] at hn
      simp [hn]
    unfold pairedCount
    rw [hcong]
    have := (hso lid).2
    unfold inCount at this
    exact this
  · have hi : db.tips.filter (fun t => t.ledger_in_id == some lid) = [] := by
      by_contra hi
      obtain ⟨t1, ht1⟩ := List.exists_mem_of_ne_nil _ ho
      obtain ⟨t2, ht2⟩ := List.exists_mem_of_ne_nil _ hi
      obtain ⟨ht1m, ht1p⟩ := List.mem_filter.mp ht1
      obtain ⟨ht2m, ht2p⟩ := List.mem_filter.mp ht2
      have e1 : t1.ledger_out_id = some lid := by simpa using ht1p
      have e2 : t2.ledger_in_id = some lid := by simpa using ht2p
      obtain ⟨l1, hl1m, hl1id, hl1r⟩ := (hty t1 ht1m).1 lid e1
      obtain ⟨l2, hl2m, hl2id, hl2r⟩ := (hty t2 ht2m).2 lid e2
      have hl12 : l1 = l2 :=
        List.inj_on_of_nodup_map hnd hl1m hl2m (hl1id.trans hl2id.symm)
      subst hl12
      exact absurd ⟨hl1r, hl2r⟩ (not_tipOut_and_tipIn l1.reason)
    have hcong : db.tips.filter (fun t =>
        t.ledger_out_id == some lid || t.ledger_in_id == some lid) =
        db.tips.filter (fun t => t.ledger_out_id == some lid) := by
      apply List.filter_congr
      intro t ht
      have hn := List.filter_eq_nil_iff.mp hi t ht
      simp only [Bool.not_eq_true] at hn
      simp [hn]
    unfold pairedCount
    rw [hcong]
    have := (hso lid).1
    unfold outCount at this
    exact this

theorem tipsInsertIgnore_shape (db : DB) (row : TipRow) :
    tipsInsertIgnore db row = db ∨
    tipsInsertIgnore db row = { db with tips := db.tips ++ [row] } := by
  unfold tipsInsertIgnore
  split
  · exact Or.inl rfl
  · exact Or.inr rfl

/-- `tips_try_pair` either leaves the store unchanged, or appends one tips
row whose same-side reference is the looked-up entry itself and whose
other side is the minimal-id candidate. -/
theorem tips_try_pair_shape (db : DB) (lid : Nat) :
    tips_try_pair db lid = db ∨
    ∃ r l row,
      db.ledger.find? (fun x => x.id == lid) = some r ∧
      tips_try_pair db lid = { db with tips := db.tips ++ [row] } ∧
      ((r.reason.isTipOut = true ∧ minByIdSel (outCands db r) = some l ∧
        row.ledger_out_id = some r.id ∧ row.ledger_in_id = some l.id) ∨
       (r.reason.isTipOut = false ∧ r.reason.isTipIn = true ∧
        minByIdSel (inCands db r) = some l ∧
        row.ledger_out_id = some l.id ∧ row.ledger_in_id = some r.id)) := by
  unfold tips_try_pair
  cases hf : db.ledger.find? (fun x => x.id == lid) with
  | none => exact Or.inl rfl
  | some r =>
      dsimp only
      by_cases hcl : r.reason.isTipClass = false
      · rw [if_pos hcl]
        exact Or.inl rfl
      · rw [if_neg hcl]
        by_cases hout : r.reason.isTipOut = true
        · rw [if_pos hout]
          cases hm : minByIdSel (outCands db r) with
          | none => exact Or.inl rfl
          | some l =>
              rcases tipsInsertIgnore_shape db
                  ⟨r.user_id, l.user_id, |r.delta_lites|,
                   min r.created_at l.created_at, some r.id, some l.id⟩ with h | h
              · exact Or.inl h
              · exact Or.inr ⟨r, l, _, rfl, h, Or.inl ⟨hout, hm, rfl, rfl⟩⟩
        · rw [if_neg hout]
          have hout' : r.reason.isTipOut = false := by
            cases hb : r.reason.isTipOut
            · rfl
            · exact absurd hb hout
          have hin : r.reason.isTipIn = true := by
            have hcl' : r.reason.isTipClass = true := by
              cases hb : r.reason.isTipClass
              · exact absurd hb hcl
              · rfl
            unfold Reason.isTipClass at hcl'
            rw [hout'] at hcl'
            simpa using hcl'
          cases hm : minByIdSel (inCands db r) with
          | none => exact Or.inl rfl
          | some l =>
              rcases tipsInsertIgnore_shape db
                  ⟨l.user_id, r.user_id, |r.delta_lites|,
                   min r.created_at l.created_at, some l.id, some r.id⟩ with h | h
              · exact Or.inl h
              · exact Or.inr ⟨r, l, _, rfl, h, Or.inr ⟨hout', hin, hm, rfl, rfl⟩⟩

theorem outCands_after (db : DB) (r : LedgerRow) (row : TipRow)
    (h : row.ledger_out_id = some r.id) :
    outCands { db with tips := db.tips ++ [row] } r = [] := by
  unfold outCands
  rw [List.filter_eq_nil_iff]
  intro l hl
  simp [List.any_append, h]

theorem inCands_after (db : DB) (r : LedgerRow) (row : TipRow)
    (h : row.ledger_in_id = some r.id) :
    inCands { db with tips := db.tips ++ [row] } r = [] := by
  unfold inCands
  rw [List.filter_eq_nil_iff]
  intro l hl
  simp [List.any_append, h]

theorem tips_try_pair_blocked_out (db : DB) (lid : Nat) (r : LedgerRow)
    (hf : db.ledger.find? (fun x => x.id == lid) = some r)
    (hout : r.reason.isTipOut = true)
    (hblock : outCands db r = []) :
    tips_try_pair db lid = db := by
  have hcl : r.reason.isTipClass = true := by
    simp [Reason.isTipClass, hout]
  unfold tips_try_pair
  rw [hf]
  simp [hcl, hout, hblock, minByIdSel]

theorem tips_try_pair_blocked_in (db : DB) (lid : Nat) (r : LedgerRow)
    (hf : db.ledger.find? (fun x => x.id == lid) = some r)
    (hcl : r.reason.isTipClass = true)
    (hout : r.reason.isTipOut = false)
    (hblock : inCands db r = []) :
    tips_try_pair db lid = db := by
  unfold tips_try_pair
  rw [hf]
  simp [hcl, hout, hblock, minByIdSel]

theorem tips_try_pair_preserves (db : DB) (lid : Nat)
    (hso : TipsSideOnce db) (hty : TipsTyped db) :
    TipsSideOnce (tips_try_pair db lid) ∧ TipsTyped (tips_try_pair db lid) := by
  rcases tips_try_pair_shape db lid with h | ⟨r, l, row, hf, heq, hside⟩
  · rw [h]
    exact ⟨hso, hty⟩
  · rw [heq]
    have hrmem : r ∈ db.ledger := List.mem_of_find?_eq_some hf
    rcases hside with ⟨hout, hmin, hro, hri⟩ | ⟨hout, hin, hmin, hro, hri⟩
    · obtain ⟨hlmem, _⟩ := minByIdSel_spec _ _ hmin
      obtain ⟨hll, hltip, hany⟩ := outCands_mem db r l hlmem
      obtain ⟨hz1, hz2⟩ := filters_nil_of_any_or_false _ _ _ hany
      exact ⟨append_sideonce db row r.id l.id hro hri hso hz1 hz2,
             append_typed db row r l hrmem hll hro hri hout hltip hty⟩
    · obtain ⟨hlmem, _⟩ := minByIdSel_spec _ _ hmin
      obtain ⟨hll, hltip, hany⟩ := inCands_mem db r l hlmem
      obtain ⟨hz1, hz2⟩ := filters_nil_of_any_or_false _ _ _ hany
      exact ⟨append_sideonce db row l.id r.id hro hri hso hz2 hz1,
             append_typed db row l r hll hrmem hro hri hltip hin hty⟩

theorem tips_try_pair_idem (db : DB) (lid : Nat) :
    tips_try_pair (tips_try_pair db lid) lid = tips_try_pair db lid := by
  rcases tips_try_pair_shape db lid with h | ⟨r, l, row, hf, heq, hside⟩
  · rw [h]
    exact h
  · rw [heq]
    rcases hside with ⟨hout, _, hro, _⟩ | ⟨hout, hin, _, _, hri⟩
    · exact tips_try_pair_blocked_out _ lid r hf hout (outCands_after db r row hro)
    · exact tips_try_pair_blocked_in _ lid r hf
        (by simp [Reason.isTipClass, hin]) hout (inCands_after db r row hri)

/-- C6, counterexample: the bootstrap pairing sweep pairs ledger entry 1
into TWO TipAudit rows at once — its `NOT EXISTS` sees only the pre-insert
snapshot, so with two matching inbound candidates both join rows pass the
unpaired check in the same statement. -/
theorem c6_counterexample :
    pairedCount c6_db0 1 = 0 ∧ pairedCount (pairSweep c6_db0) 1 = 2 := by
  refine ⟨by decide, by decide⟩

/-- C6, amended to tips_try_pair (the trigger-invoked pairing routine):
on a store whose tips rows reference each side at most once and are
well-typed, tips_try_pair (1) preserves both properties, (2) — with
distinct ledger ids — every ledger entry appears in at most one tips row,
(3) the routine selects the candidate of least id (earliest inserted), and
(4) running it twice over the same entry equals running it once.  (The
bootstrap sweep does NOT preserve the invariant; see the counterexample.) -/
theorem c6_pairing (db : DB) (lid : Nat)
    (hso : TipsSideOnce db) (hty : TipsTyped db)
    (hnd : (db.ledger.map LedgerRow.id).Nodup) :
    (TipsSideOnce (tips_try_pair db lid) ∧ TipsTyped (tips_try_pair db lid)) ∧
    (∀ lid0, pairedCount db lid0 ≤ 1) ∧
    (∀ r l, db.ledger.find? (fun x => x.id == lid) = some r →
       ((minByIdSel (outCands db r) = some l →
           l ∈ outCands db r ∧ ∀ l2 ∈ outCands db r, l.id ≤ l2.id) ∧
        (minByIdSel (inCands db r) = some l →
           l ∈ inCands db r ∧ ∀ l2 ∈ inCands db r, l.id ≤ l2.id))) ∧
    tips_try_pair (tips_try_pair db lid) lid = tips_try_pair db lid := by
  refine ⟨tips_try_pair_preserves db lid hso hty, ?_, ?_, tips_try_pair_idem db lid⟩
  · intro lid0
    exact pairedCount_le_one db hso hty hnd lid0
  · intro r l _
    exact ⟨fun hm => minByIdSel_spec _ _ hm, fun hm => minByIdSel_spec _ _ hm⟩

theorem c6_pairing_witness :
    TipsSideOnce (tips_try_pair c6_db0 1) ∧ TipsTyped (tips_try_pair c6_db0 1) := by
  have hso : TipsSideOnce c6_db0 := fun lid => ⟨Nat.zero_le 1, Nat.zero_le 1⟩
  have hty : TipsTyped c6_db0 := fun t ht => absurd ht (List.not_mem_nil t)
  exact (c6_pairing c6_db0 1 hso hty (by decide)).1

-- ---------------------------------------------------------------------------
-- C10: amount parsing and formatting (src/util.ts)
-- ---------------------------------------------------------------------------

/-- JS whitespace for `String.trim` (the characters relevant to amounts). -/
def isWs (c : Char) : Bool :=
  c == ' ' || c == '\t' || c == '\n' || c == '\r'

/-- `input.trim()`. -/
def trimChars (s : List Char) : List Char :=
  ((s.dropWhile isWs).reverse.dropWhile isWs).reverse

/-- Numeric value of a digit character. -/
def charVal (c : Char) : Nat := c.toNat - 48

/-- `BigInt(str)` on a digit string: decimal value. -/
def digitsToNat (s : List Char) : Nat :=
  s.foldl (fun acc c => 10 * acc + charVal c) 0

/-- `n.toString()` for a non-negative big integer: decimal digits,
most significant first. -/
def natToDigits (n : Nat) : List Char :=
  if n = 0 then ['0'] else ((Nat.digits 10 n).map Nat.digitChar).reverse

/-- The part of `s` before the first `'.'` (`s.split('.')[0]`). -/
def intPart (s : List Char) : List Char :=
  s.takeWhile (fun c => !(c == '.'))

/-- The part of `s` after the first `'.'` (`s.split('.')[1] ?? ""`,
given the shape check admits at most one dot). -/
def fracPart (s : List Char) : List Char :=
  (s.dropWhile (fun c => !(c == '.'))).drop 1

def hasDot (s : List Char) : Bool := s.any (fun c => c == '.')

/-- The regex `^\d+(\.\d+)?$`: a non-empty run of digits, optionally
followed by a dot and a non-empty run of digits (an all-digit fractional
part in particular excludes a second dot). -/
def decimalShape (s : List Char) : Bool :=
  !(intPart s).isEmpty && (intPart s).all Char.isDigit &&
  (!hasDot s || (!(fracPart s).isEmpty && (fracPart s).all Char.isDigit))

/-- `neg ? s0.slice(1) : s0` with `neg = s0.startsWith('-')`. -/
def stripNeg (s : List Char) : List Char :=
  if s.head? == some '-' then s.tail else s

/-- `f.replace(/0+$/, '')`. -/
def stripTrailingZeros (s : List Char) : List Char :=
  (s.reverse.dropWhile (fun c => c == '0')).reverse

/-- `parseLkyToLites` (src/util.ts): trim, reject empty, strip an
optional leading minus, check `^\d+(\.\d+)?$`, reject more than 8
decimals, right-pad the fraction to 8 digits and combine with
`LITES_PER_LKY = 100000000`. -/
def parseLkyToLites (input : List Char) : Except String Int :=
  let s0 := trimChars input
  if s0.isEmpty then .error "amount is empty"
  else
    let neg := s0.head? == some '-'
    let s := stripNeg s0
    if decimalShape s = false then .error "invalid amount format"
    else if 8 < (fracPart s).length then .error "too many decimals (max 8)"
    else
      let f := fracPart s ++ List.replicate (8 - (fracPart s).length) '0'
      let total : Int :=
        (digitsToNat (intPart s) : Int) * 100000000 + (digitsToNat f : Int)
      .ok (if neg then -total else total)

/-- `formatLky` (src/util.ts): split into whole part and remainder,
left-pad the remainder to 8 digits, strip trailing zeros, keep at most
`min decimals 8` fractional digits. -/
def formatLky (lites : Int) (decimals : Nat) : List Char :=
  let neg := lites < 0
  let v := if neg then -lites else lites
  let i := v / 100000000
  let rem := v % 100000000
  let f := List.replicate (8 - (natToDigits rem.toNat).length) '0' ++
    natToDigits rem.toNat
  let trimmed := stripTrailingZeros f
  let frac := trimmed.take (min decimals 8)
  (if neg then ['-'] else []) ++ natToDigits i.toNat ++
    (if frac.isEmpty then [] else '.' :: frac)

/-- The Nat shadow of `formatLky` on non-negative inputs. -/
def formatNat (v : Nat) (decimals : Nat) : List Char :=
  let i := v / 100000000
  let rem := v % 100000000
  let f := List.replicate (8 - (natToDigits rem).length) '0' ++ natToDigits rem
  let trimmed := stripTrailingZeros f
  let frac := trimmed.take (min decimals 8)
  natToDigits i ++ (if frac.isEmpty then [] else '.' :: frac)

theorem digitChar_isDigit (d : Nat) (h : d < 10) :
    (Nat.digitChar d).isDigit = true := by
  interval_cases d <;> decide

theorem charVal_digitChar (d : Nat) (h : d < 10) :
    charVal (Nat.digitChar d) = d := by
  interval_cases d <;> decide

theorem digit_not_dot (c : Char) (h : c.isDigit = true) : (c == '.') = false := by
  cases hb : c == '.' with
  | false => rfl
  | true =>
      have : c = '.' := by simpa using hb
      subst this
      exact absurd h (by decide)

theorem digit_not_minus (c : Char) (h : c.isDigit = true) : (c == '-') = false := by
  cases hb : c == '-' with
  | false => rfl
  | true =>
      have : c = '-' := by simpa using hb
      subst this
      exact absurd h (by decide)

theorem digit_not_ws (c : Char) (h : c.isDigit = true) : isWs c = false := by
  cases hb : isWs c with
  | false => rfl
  | true =>
      unfold isWs at hb
      simp only [Bool.or_eq_true, beq_iff_eq] at hb
      have hb' : c = ' ' ∨ c = '\t' ∨ c = '\n' ∨ c = '\r' := by tauto
      rcases hb' with h1 | h1 | h1 | h1 <;> subst h1 <;> exact absurd h (by decide)

theorem natToDigits_ne_nil (n : Nat) : natToDigits n ≠ [] := by
  unfold natToDigits
  by_cases h : n = 0
  · simp [h]
  · rw [if_neg h]
    simp only [ne_eq, List.reverse_eq_nil_iff, List.map_eq_nil]
    exact Nat.digits_ne_nil_iff_ne_zero.mpr h

theorem natToDigits_all_digits (n : Nat) :
    ∀ c ∈ natToDigits n, c.isDigit = true := by
  intro c hc
  unfold natToDigits at hc
  by_cases h : n = 0
  · rw [if_pos h] at hc
    simp only [List.mem_singleton] at hc
    subst hc
    decide
  · rw [if_neg h] at hc
    rw [List.mem_reverse] at hc
    obtain ⟨d, hd, hdc⟩ := List.mem_map.mp hc
    subst hdc
    exact digitChar_isDigit d (Nat.digits_lt_base (by norm_num) hd)

theorem digitsToNat_acc (s : List Char) (acc : Nat) :
    s.foldl (fun a c => 10 * a + charVal c) acc =
      acc * 10 ^ s.length + digitsToNat s := by
  induction s generalizing acc with
  | nil => simp [digitsToNat]
  | cons c t ih =>
      have h1 : (c :: t).foldl (fun a c => 10 * a + charVal c) acc =
          t.foldl (fun a c => 10 * a + charVal c) (10 * acc + charVal c) := rfl
      have h2 : digitsToNat (c :: t) =
          t.foldl (fun a c => 10 * a + charVal c) (charVal c) := by
        unfold digitsToNat
        simp [List.foldl_cons]
      rw [h1, ih, h2, ih (charVal c)]
      simp only [List.length_cons]
      ring

theorem digitsToNat_append (a b : List Char) :
    digitsToNat (a ++ b) = digitsToNat a * 10 ^ b.length + digitsToNat b := by
  unfold digitsToNat
  rw [List.foldl_append]
  exact digitsToNat_acc b _

theorem digitsToNat_replicate_zero (k : Nat) :
    digitsToNat (List.replicate k '0') = 0 := by
  induction k with
  | zero => rfl
  | succ n ih =>
      rw [List.replicate_succ]
      unfold digitsToNat at ih ⊢
      simp only [List.foldl_cons]
      have : (10 * 0 + charVal '0') = 0 := by decide
      rw [this]
      exact ih

theorem digitsToNat_leading_zeros (k : Nat) (d : List Char) :
    digitsToNat (List.replicate k '0' ++ d) = digitsToNat d := by
  rw [digitsToNat_append, digitsToNat_replicate_zero]
  simp

theorem foldr_digits (L : List Nat) (h : ∀ d ∈ L, d < 10) :
    L.foldr (fun d acc => 10 * acc + charVal (Nat.digitChar d)) 0 =
      Nat.ofDigits 10 L := by
  induction L with
  | nil => simp [Nat.ofDigits]
  | cons d t ih =>
      rw [List.foldr_cons, Nat.ofDigits_cons,
        ih (fun x hx => h x (List.mem_cons_of_mem d hx)),
        charVal_digitChar d (h d (List.mem_cons_self d t))]
      ring

theorem digitsToNat_natToDigits (n : Nat) :
    digitsToNat (natToDigits n) = n := by
  unfold natToDigits
  by_cases h : n = 0
  · rw [if_pos h, h]
    decide
  · rw [if_neg h]
    unfold digitsToNat
    rw [List.foldl_reverse, List.foldr_map]
    have := foldr_digits (Nat.digits 10 n)
      (fun d hd => Nat.digits_lt_base (by norm_num) hd)
    simp only at this ⊢
    rw [this, Nat.ofDigits_digits]

theorem dropWhile_eq_self_of_false (p : Char → Bool) (s : List Char)
    (h : ∀ c ∈ s, p c = false) : s.dropWhile p = s := by
  cases s with
  | nil => rfl
  | cons a t =>
      rw [List.dropWhile_cons, h a (List.mem_cons_self a t)]
      simp

theorem trimChars_eq_self (s : List Char) (h : ∀ c ∈ s, isWs c = false) :
    trimChars s = s := by
  unfold trimChars
  rw [dropWhile_eq_self_of_false isWs s h,
    dropWhile_eq_self_of_false isWs s.reverse (fun c hc => h c (List.mem_reverse.mp hc)),
    List.reverse_reverse]

theorem takeWhile_append_all (p : Char → Bool) (a b : List Char)
    (h : ∀ c ∈ a, p c = true) :
    (a ++ b).takeWhile p = a ++ b.takeWhile p := by
  induction a with
  | nil => rfl
  | cons x t ih =>
      rw [List.cons_append, List.takeWhile_cons, h x (List.mem_cons_self x t)]
      simp only [if_true, List.cons_append]
      exact congrArg (List.cons x) (ih (fun c hc => h c (List.mem_cons_of_mem x hc)))

theorem dropWhile_append_all (p : Char → Bool) (a b : List Char)
    (h : ∀ c ∈ a, p c = true) :
    (a ++ b).dropWhile p = b.dropWhile p := by
  induction a with
  | nil => rfl
  | cons x t ih =>
      rw [List.cons_append, List.dropWhile_cons, h x (List.mem_cons_self x t)]
      simp only [if_true]
      exact ih (fun c hc => h c (List.mem_cons_of_mem x hc))

theorem takeWhile_eq_self_of_true (p : Char → Bool) (s : List Char)
    (h : ∀ c ∈ s, p c = true) : s.takeWhile p = s := by
  induction s with
  | nil => rfl
  | cons a t ih =>
      rw [List.takeWhile_cons, h a (List.mem_cons_self a t)]
      simp only [if_true, List.cons.injEq, true_and]
      exact ih (fun c hc => h c (List.mem_cons_of_mem a hc))

theorem takeWhile_mem_of_mem (p : Char → Bool) (s : List Char) :
    ∀ c ∈ s.takeWhile p, p c = true := by
  induction s with
  | nil => intro c hc; simp [List.takeWhile] at hc
  | cons a t ih =>
      intro c hc
      rw [List.takeWhile_cons] at hc
      by_cases hp : p a = true
      · rw [hp] at hc
        simp only [if_true, List.mem_cons] at hc
        rcases hc with rfl | hc
        · exact hp
        · exact ih c hc
      · rw [Bool.not_eq_true] at hp
        rw [hp] at hc
        simp at hc

/-- `s` is its trailing-zero-stripped form followed by zeros. -/
theorem stripTrailingZeros_decomp (s : List Char) :
    ∃ k, s = stripTrailingZeros s ++ List.replicate k '0' := by
  refine ⟨(s.reverse.takeWhile (fun c => c == '0')).length, ?_⟩
  unfold stripTrailingZeros
  have hdecomp := List.takeWhile_append_dropWhile (p := fun c => c == '0') (l := s.reverse)
  have hrep : s.reverse.takeWhile (fun c => c == '0') =
      List.replicate (s.reverse.takeWhile (fun c => c == '0')).length '0' := by
    apply List.eq_replicate_of_mem
    intro c hc
    have := takeWhile_mem_of_mem _ _ c hc
    simpa using this
  calc s = s.reverse.reverse := (List.reverse_reverse s).symm
    _ = (s.reverse.takeWhile (fun c => c == '0') ++
          s.reverse.dropWhile (fun c => c == '0')).reverse := by rw [hdecomp]
    _ = (s.reverse.dropWhile (fun c => c == '0')).reverse ++
          (s.reverse.takeWhile (fun c => c == '0')).reverse := by
            rw [List.reverse_append]
    _ = (s.reverse.dropWhile (fun c => c == '0')).reverse ++
          List.replicate (s.reverse.takeWhile (fun c => c == '0')).length '0' := by
            rw [hrep, List.reverse_replicate]
            simp

theorem formatLky_ofNat (v : Nat) (decimals : Nat) :
    formatLky (v : Int) decimals = formatNat v decimals := by
  unfold formatLky formatNat
  dsimp only
  have hneg : ¬((v : Int) < 0) := not_lt.mpr (Int.natCast_nonneg v)
  rw [if_neg hneg, if_neg hneg]
  have h1 : ((v : Int) / 100000000).toNat = v / 100000000 := by omega
  have h2 : ((v : Int) % 100000000).toNat = v % 100000000 := by omega
  rw [h1, h2]
  simp

theorem dropWhile_nil_of_true (p : Char → Bool) (s : List Char)
    (h : ∀ c ∈ s, p c = true) : s.dropWhile p = [] := by
  induction s with
  | nil => rfl
  | cons a t ih =>
      rw [List.dropWhile_cons, h a (List.mem_cons_self a t)]
      simp only [if_true]
      exact ih (fun c hc => h c (List.mem_cons_of_mem a hc))

theorem isEmpty_false_of_ne_nil (s : List Char) (h : s ≠ []) : s.isEmpty = false := by
  cases s with
  | nil => exact absurd rfl h
  | cons a t => rfl

theorem head?_append_left (a b : List Char) (h : a ≠ []) :
    (a ++ b).head? = a.head? := by
  cases a with
  | nil => exact absurd rfl h
  | cons x t => rfl

theorem head_not_minus (s : List Char) (h : ∀ c ∈ s, c.isDigit = true) :
    (s.head? == some '-') = false := by
  cases s with
  | nil => rfl
  | cons c t => exact digit_not_minus c (h c (List.mem_cons_self c t))

theorem natToDigits_length_le_8 (n : Nat) (h : n < 100000000) :
    (natToDigits n).length ≤ 8 := by
  unfold natToDigits
  by_cases h0 : n = 0
  · rw [if_pos h0]
    decide
  · rw [if_neg h0]
    rw [List.length_reverse, List.length_map]
    by_contra hlen
    push_neg at hlen
    have h10 : (10 : Nat) ^ (Nat.digits 10 n).length ≤ 10 * n :=
      Nat.base_pow_length_digits_le 10 n (by norm_num) h0
    have hc : (1000000000 : Nat) ≤ 10 * n := by
      calc (1000000000 : Nat) = 10 ^ 9 := by norm_num
        _ ≤ 10 ^ (Nat.digits 10 n).length := Nat.pow_le_pow_right (by norm_num) hlen
        _ ≤ 10 * n := h10
    omega

theorem hasDot_false_of_digits (s : List Char) (h : ∀ c ∈ s, c.isDigit = true) :
    hasDot s = false := by
  unfold hasDot
  rw [List.any_eq_false]
  intro c hc
  simp [digit_not_dot c (h c hc)]

/-- Parsing a formatted value: a non-empty digit string, optionally
followed by a dot and up to 8 fractional digits, parses to the combined
lites value. -/
theorem parse_digits_output (nd frac : List Char)
    (hnd_ne : nd ≠ []) (hnd_dig : ∀ c ∈ nd, c.isDigit = true)
    (hfr_dig : ∀ c ∈ frac, c.isDigit = true)
    (hfl : frac.length ≤ 8) :
    parseLkyToLites (nd ++ (if frac.isEmpty then [] else '.' :: frac)) =
      .ok ((digitsToNat nd : Int) * 100000000 +
           (digitsToNat (frac ++ List.replicate (8 - frac.length) '0') : Int)) := by
  cases frac with
  | nil =>
      simp only [List.isEmpty_nil, if_true, List.append_nil, List.nil_append,
        List.length_nil, Nat.sub_zero]
      have htrim : trimChars nd = nd :=
        trimChars_eq_self nd (fun c hc => digit_not_ws c (hnd_dig c hc))
      have hne : nd.isEmpty = false := isEmpty_false_of_ne_nil nd hnd_ne
      have hhead : (nd.head? == some '-') = false := head_not_minus nd hnd_dig
      have hstrip : stripNeg nd = nd := by
        unfold stripNeg
        rw [hhead]
        simp
      have hint : intPart nd = nd :=
        takeWhile_eq_self_of_true _ nd (fun c hc => by
          simp [digit_not_dot c (hnd_dig c hc)])
      have hfrp : fracPart nd = [] := by
        unfold fracPart
        rw [dropWhile_nil_of_true _ nd (fun c hc => by
          simp [digit_not_dot c (hnd_dig c hc)])]
        rfl
      have hshape : decimalShape nd = true := by
        unfold decimalShape
        rw [hint, hasDot_false_of_digits nd hnd_dig, hne,
          List.all_eq_true.mpr hnd_dig]
        rfl
      unfold parseLkyToLites
      dsimp only
      rw [htrim, hne]
      simp only [Bool.false_eq_true, if_false]
      rw [hstrip, hhead]
      have hsh : ¬(decimalShape nd = false) := by rw [hshape]; simp
      rw [if_neg hsh]
      rw [hfrp]
      have hlen0 : ¬(8 < ([] : List Char).length) := by simp
      rw [if_neg hlen0]
      simp only [Bool.false_eq_true, if_false]
      rw [hint]
      simp
  | cons fc ft =>
      simp only [List.isEmpty_cons, Bool.false_eq_true, if_false]
      have hout_ws : ∀ c ∈ nd ++ '.' :: fc :: ft, isWs c = false := by
        intro c hc
        rcases List.mem_append.mp hc with h | h
        · exact digit_not_ws c (hnd_dig c h)
        · rcases List.mem_cons.mp h with rfl | h
          · decide
          · exact digit_not_ws c (hfr_dig c h)
      have htrim : trimChars (nd ++ '.' :: fc :: ft) = nd ++ '.' :: fc :: ft :=
        trimChars_eq_self _ hout_ws
      have hne2 : (nd ++ '.' :: fc :: ft).isEmpty = false :=
        isEmpty_false_of_ne_nil _ (by
          intro h
          exact hnd_ne (List.append_eq_nil.mp h).1)
      have hhead : ((nd ++ '.' :: fc :: ft).head? == some '-') = false := by
        rw [head?_append_left nd _ hnd_ne]
        exact head_not_minus nd hnd_dig
      have hstrip : stripNeg (nd ++ '.' :: fc :: ft) = nd ++ '.' :: fc :: ft := by
        unfold stripNeg
        rw [hhead]
        simp
      have hint : intPart (nd ++ '.' :: fc :: ft) = nd := by
        unfold intPart
        rw [takeWhile_append_all _ nd _ (fun c hc => by
          simp [digit_not_dot c (hnd_dig c hc)])]
        rw [List.takeWhile_cons]
        simp
      have hfrp : fracPart (nd ++ '.' :: fc :: ft) = fc :: ft := by
        unfold fracPart
        rw [dropWhile_append_all _ nd _ (fun c hc => by
          simp [digit_not_dot c (hnd_dig c hc)])]
        rw [List.dropWhile_cons]
        simp
      have hdot : hasDot (nd ++ '.' :: fc :: ft) = true := by
        unfold hasDot
        rw [List.any_eq_true]
        exact ⟨'.', List.mem_append.mpr (Or.inr (List.mem_cons_self _ _)), by simp⟩
      have hshape : decimalShape (nd ++ '.' :: fc :: ft) = true := by
        unfold decimalShape
        rw [hint, hfrp, hdot, isEmpty_false_of_ne_nil nd hnd_ne,
          List.all_eq_true.mpr hnd_dig, List.isEmpty_cons,
          List.all_eq_true.mpr hfr_dig]
        rfl
      unfold parseLkyToLites
      dsimp only
      rw [htrim, hne2]
      simp only [Bool.false_eq_true, if_false]
      rw [hstrip, hhead]
      have hsh : ¬(decimalShape (nd ++ '.' :: fc :: ft) = false) := by
        rw [hshape]
        simp
      rw [if_neg hsh]
      rw [hfrp]
      have hfl2 : ¬(8 < (fc :: ft).length) := not_lt.mpr hfl
      rw [if_neg hfl2]
      simp only [Bool.false_eq_true, if_false]
      rw [hint]

theorem stripTrailingZeros_length_le (s : List Char) :
    (stripTrailingZeros s).length ≤ s.length := by
  obtain ⟨k, hk⟩ := stripTrailingZeros_decomp s
  conv_rhs => rw [hk]
  rw [List.length_append]
  omega

theorem padded_length (n : Nat) (h : n < 100000000) :
    (List.replicate (8 - (natToDigits n).length) '0' ++ natToDigits n).length = 8 := by
  rw [List.length_append, List.length_replicate]
  have := natToDigits_length_le_8 n h
  omega

theorem formatNat_decomp (v : Nat) :
    formatNat v 8 =
      natToDigits (v / 100000000) ++
      (if (stripTrailingZeros (List.replicate
            (8 - (natToDigits (v % 100000000)).length) '0' ++
            natToDigits (v % 100000000))).isEmpty then []
       else '.' :: stripTrailingZeros (List.replicate
            (8 - (natToDigits (v % 100000000)).length) '0' ++
            natToDigits (v % 100000000))) := by
  have hrem : v % 100000000 < 100000000 := Nat.mod_lt v (by norm_num)
  have htrle : (stripTrailingZeros (List.replicate
      (8 - (natToDigits (v % 100000000)).length) '0' ++
      natToDigits (v % 100000000))).length ≤ 8 := by
    have h1 := stripTrailingZeros_length_le (List.replicate
      (8 - (natToDigits (v % 100000000)).length) '0' ++
      natToDigits (v % 100000000))
    rw [padded_length _ hrem] at h1
    exact h1
  unfold formatNat
  dsimp only
  rw [min_self, List.take_of_length_le htrle]

/-- Round-trip on the Nat shadow. -/
theorem parse_formatNat (v : Nat) :
    parseLkyToLites (formatNat v 8) = Except.ok (v : Int) := by
  have hrem : v % 100000000 < 100000000 := Nat.mod_lt v (by norm_num)
  rw [formatNat_decomp v]
  set nd := natToDigits (v / 100000000) with hnd_def
  set f := List.replicate (8 - (natToDigits (v % 100000000)).length) '0' ++
      natToDigits (v % 100000000) with hf_def
  set trimmed := stripTrailingZeros f with htr_def
  have hflen : f.length = 8 := padded_length _ hrem
  obtain ⟨k, hk⟩ := stripTrailingZeros_decomp f
  rw [← htr_def] at hk
  have h8 : trimmed.length + k = f.length := by
    rw [hk, List.length_append, List.length_replicate]
  have htrlen : trimmed.length + k = 8 := by
    rw [← hflen]
    exact h8
  have htrle : trimmed.length ≤ 8 := by omega
  have hnd_ne : nd ≠ [] := natToDigits_ne_nil _
  have hnd_dig : ∀ c ∈ nd, c.isDigit = true := natToDigits_all_digits _
  have hf_dig : ∀ c ∈ f, c.isDigit = true := by
    intro c hc
    rw [hf_def] at hc
    rcases List.mem_append.mp hc with h | h
    · rw [List.eq_of_mem_replicate h]
      decide
    · exact natToDigits_all_digits _ c h
  have htr_dig : ∀ c ∈ trimmed, c.isDigit = true := by
    intro c hc
    exact hf_dig c (by rw [hk]; exact List.mem_append.mpr (Or.inl hc))
  have hpad : trimmed ++ List.replicate (8 - trimmed.length) '0' = f := by
    rw [show 8 - trimmed.length = k from by omega]
    exact hk.symm
  rw [parse_digits_output nd trimmed hnd_ne hnd_dig htr_dig htrle]
  rw [hpad]
  have hnd_val : digitsToNat nd = v / 100000000 := by
    rw [hnd_def]
    exact digitsToNat_natToDigits _
  have hf_val : digitsToNat f = v % 100000000 := by
    rw [hf_def, digitsToNat_leading_zeros, digitsToNat_natToDigits]
  rw [hnd_val, hf_val]
  have hfin : ((v / 100000000 : Nat) : Int) * 100000000 +
      ((v % 100000000 : Nat) : Int) = (v : Int) := by
    omega
  rw [hfin]

/-- C10: formatting a non-negative lites amount with 8 decimals and
parsing it back is the identity, and parseLkyToLites rejects any input
whose trimmed, sign-stripped body fails the `^\d+(\.\d+)?$` shape or
carries more than 8 decimal places — no precision is silently lost. -/
theorem c10_roundtrip :
    (∀ v : Nat, parseLkyToLites (formatLky (v : Int) 8) = Except.ok (v : Int)) ∧
    (∀ input : List Char,
      (decimalShape (stripNeg (trimChars input)) = false →
        ∀ t, parseLkyToLites input ≠ Except.ok t) ∧
      (8 < (fracPart (stripNeg (trimChars input))).length →
        ∀ t, parseLkyToLites input ≠ Except.ok t)) := by
  constructor
  · intro v
    rw [formatLky_ofNat]
    exact parse_formatNat v
  · intro input
    constructor
    · intro hsh t
      unfold parseLkyToLites
      dsimp only
      by_cases he : (trimChars input).isEmpty = true
      · rw [if_pos he]
        simp
      · rw [if_neg he, if_pos hsh]
        simp
    · intro hlen t
      unfold parseLkyToLites
      dsimp only
      by_cases he : (trimChars input).isEmpty = true
      · rw [if_pos he]
        simp
      · rw [if_neg he]
        by_cases hsh : decimalShape (stripNeg (trimChars input)) = false
        · rw [if_pos hsh]
          simp
        · rw [if_neg hsh, if_pos hlen]
          simp

theorem c10_roundtrip_witness :
    parseLkyToLites (formatLky ((123456789 : Nat) : Int) 8) =
      Except.ok ((123456789 : Nat) : Int) ∧
    (∀ t, parseLkyToLites
      ['0', '.', '1', '2', '3', '4', '5', '6', '7', '8', '9'] ≠ Except.ok t) :=
  ⟨c10_roundtrip.1 123456789,
   (c10_roundtrip.2 ['0', '.', '1', '2', '3', '4', '5', '6', '7', '8', '9']).2
     (by decide)⟩

end LuckyBot
